import Mathlib

/-!
Verification development for the external scanner of `tree-sitter-htmldjango`
(`src/scanner.c`).  The scanner state, the serializer and every sub-scanner are
shallowly embedded as executable Lean functions over byte lists; input is a
list of code points and end-of-input is modelled by a lookahead of `0`, as in
the C lexer.  The tag vocabulary lives in `tag.h`, which is not part of the
sources here, so those definitions are modelled from the specification.
-/

namespace HtmlDjango

/-- A byte / code point is a natural number; `0` doubles as the end-of-input
    lookahead exactly as in the C lexer. -/
abbrev Byte := Nat

/-- Code points of a string, for spelling out the C string literals. -/
def strBytes (s : String) : List Byte := s.toList.map Char.toNat

/-- Read the lookahead / a buffer byte: out-of-range reads yield `0`,
    matching the C lexer's end-of-input lookahead. -/
def readB (buf : List Byte) (i : Nat) : Byte := buf.getD i 0

/-- Overwrite one cell of a growable buffer; the verbatim-start scanner only
    ever writes at consecutive indices, so writing one past the end models the
    `realloc` growth. -/
def writeB (buf : List Byte) (i : Nat) (b : Byte) : List Byte :=
  if i < buf.length then buf.set i b else buf ++ [b]

/-- Overwrite the prefix of a buffer (the `memcpy` into the verbatim buffer);
    `realloc` preserves the bytes beyond the copied region. -/
def overwritePrefix (old new : List Byte) : List Byte :=
  new ++ old.drop new.length

/-- `is_horizontal_space` from scanner.c: space, tab, carriage return. -/
def is_horizontal_space (c : Byte) : Bool := c == 32 || c == 9 || c == 13

/-- The four-character whitespace test used inside the Django sub-scanners:
    space, tab, carriage return, newline. -/
def isWs4 (c : Byte) : Bool := c == 32 || c == 9 || c == 13 || c == 10

/-- `iswspace` in the C locale: space, \t, \n, \v, \f, \r. -/
def iswspaceB (c : Byte) : Bool :=
  c == 32 || c == 9 || c == 10 || c == 11 || c == 12 || c == 13

/-- `iswalpha` in the C locale (ASCII letters). -/
def iswalphaB (c : Byte) : Bool := (65 ≤ c && c ≤ 90) || (97 ≤ c && c ≤ 122)

/-- ASCII digit test. -/
def isDigitB (c : Byte) : Bool := 48 ≤ c && c ≤ 57

/-- `iswalnum` in the C locale (ASCII letters and digits). -/
def iswalnumB (c : Byte) : Bool := iswalphaB c || isDigitB c

/-- `towupper` in the C locale: ASCII lowercase folds to uppercase. -/
def towupperB (c : Nat) : Nat := if 97 ≤ c && c ≤ 122 then c - 32 else c

/-- The token ids of `enum TokenType` in scanner.c, in source order. -/
inductive Token where
  | HTML_START_TAG_NAME
  | VOID_START_TAG_NAME
  | FOREIGN_START_TAG_NAME
  | SCRIPT_START_TAG_NAME
  | STYLE_START_TAG_NAME
  | TITLE_START_TAG_NAME
  | TEXTAREA_START_TAG_NAME
  | PLAINTEXT_START_TAG_NAME
  | END_TAG_NAME
  | ERRONEOUS_END_TAG_NAME
  | SELF_CLOSING_TAG_DELIMITER
  | IMPLICIT_END_TAG
  | RAW_TEXT
  | RCDATA_TEXT
  | PLAINTEXT_TEXT
  | COMMENT
  | DJANGO_COMMENT_CONTENT
  | VERBATIM_START
  | VERBATIM_BLOCK_CONTENT
  | VALIDATE_GENERIC_BLOCK
  | VALIDATE_GENERIC_SIMPLE
  | FILTER_COLON
deriving DecidableEq, BEq

/-- The validity vector handed to `scan` by the parser. -/
abbrev Valid := Token → Bool

/-! ### Tag vocabulary

Modelled from the spec: `tag.h` is not among the sources; the spec's data
model section lists the named tag kinds (`HTML`, `HEAD`, `BODY`, `SCRIPT`,
`STYLE`, `TITLE`, `TEXTAREA`, `PLAINTEXT`, `SVG`, `MATH`, the fourteen void
tags, block/inline tags needed for the containment rules, and a `CUSTOM`
variant carrying an owned name).  Tag kinds are C enum values, i.e. small
naturals; `CUSTOM` is one distinguished value. -/

namespace TagT

def AREA : Nat := 0
def BASE : Nat := 1
def BR : Nat := 2
def COL : Nat := 3
def EMBED : Nat := 4
def HR : Nat := 5
def IMG : Nat := 6
def INPUT : Nat := 7
def LINK : Nat := 8
def META : Nat := 9
def PARAM : Nat := 10
def SOURCE : Nat := 11
def TRACK : Nat := 12
def WBR : Nat := 13
def END_OF_VOID_TAGS : Nat := 14
def HTML : Nat := 15
def HEAD : Nat := 16
def BODY : Nat := 17
def SCRIPT : Nat := 18
def STYLE : Nat := 19
def TITLE : Nat := 20
def TEXTAREA : Nat := 21
def PLAINTEXT : Nat := 22
def SVG : Nat := 23
def MATH : Nat := 24
def P : Nat := 25
def LI : Nat := 26
def TR : Nat := 27
def CUSTOM : Nat := 28

end TagT

/-- A tag: kind (a C enum value) plus the owned custom name bytes.
    Modelled from the spec: a pair of kind and optional owned name. -/
structure Tag where
  type : Nat
  name : List Byte
deriving DecidableEq

/-- Modelled from the spec: `tag_new()` yields the empty placeholder tag that
    `deserialize` uses for tags dropped by an overflowing `serialize`. -/
def tag_new : Tag := ⟨TagT.END_OF_VOID_TAGS, []⟩

/-- Modelled from the spec: two tags are equal iff they have the same kind
    and, for `CUSTOM`, the same name bytes. -/
def tag_eq (a b : Tag) : Bool :=
  a.type == b.type && (a.type != TagT.CUSTOM || a.name == b.name)

/-- Modelled from the spec: `is_void` is a fixed membership test of the
    fourteen enumerated void kinds (the enum values below the marker). -/
def tag_is_void (t : Tag) : Bool := t.type < TagT.END_OF_VOID_TAGS

/-- Modelled from the spec: the implicit-close table — `<p>` cannot contain
    another `<p>`, `<li>` another `<li>`, `<tr>` another `<tr>`; conservative
    default `true` for kinds with no rule. -/
def tag_can_contain (parent child : Tag) : Bool :=
  if parent.type == TagT.P && child.type == TagT.P then false
  else if parent.type == TagT.LI && child.type == TagT.LI then false
  else if parent.type == TagT.TR && child.type == TagT.TR then false
  else true

/-- Modelled from the spec: uppercase ASCII lookup against a static table of
    recognized HTML tag names; unrecognized names become `CUSTOM` owning the
    name bytes. -/
def tag_for_name (n : List Byte) : Tag :=
  if n = strBytes "AREA" then ⟨TagT.AREA, []⟩
  else if n = strBytes "BASE" then ⟨TagT.BASE, []⟩
  else if n = strBytes "BR" then ⟨TagT.BR, []⟩
  else if n = strBytes "COL" then ⟨TagT.COL, []⟩
  else if n = strBytes "EMBED" then ⟨TagT.EMBED, []⟩
  else if n = strBytes "HR" then ⟨TagT.HR, []⟩
  else if n = strBytes "IMG" then ⟨TagT.IMG, []⟩
  else if n = strBytes "INPUT" then ⟨TagT.INPUT, []⟩
  else if n = strBytes "LINK" then ⟨TagT.LINK, []⟩
  else if n = strBytes "META" then ⟨TagT.META, []⟩
  else if n = strBytes "PARAM" then ⟨TagT.PARAM, []⟩
  else if n = strBytes "SOURCE" then ⟨TagT.SOURCE, []⟩
  else if n = strBytes "TRACK" then ⟨TagT.TRACK, []⟩
  else if n = strBytes "WBR" then ⟨TagT.WBR, []⟩
  else if n = strBytes "HTML" then ⟨TagT.HTML, []⟩
  else if n = strBytes "HEAD" then ⟨TagT.HEAD, []⟩
  else if n = strBytes "BODY" then ⟨TagT.BODY, []⟩
  else if n = strBytes "SCRIPT" then ⟨TagT.SCRIPT, []⟩
  else if n = strBytes "STYLE" then ⟨TagT.STYLE, []⟩
  else if n = strBytes "TITLE" then ⟨TagT.TITLE, []⟩
  else if n = strBytes "TEXTAREA" then ⟨TagT.TEXTAREA, []⟩
  else if n = strBytes "PLAINTEXT" then ⟨TagT.PLAINTEXT, []⟩
  else if n = strBytes "SVG" then ⟨TagT.SVG, []⟩
  else if n = strBytes "MATH" then ⟨TagT.MATH, []⟩
  else if n = strBytes "P" then ⟨TagT.P, []⟩
  else if n = strBytes "LI" then ⟨TagT.LI, []⟩
  else if n = strBytes "TR" then ⟨TagT.TR, []⟩
  else ⟨TagT.CUSTOM, n⟩

/-- The scanner state: the open-element stack (index 0 is the bottom, the last
    element is the stack top, as in the C array) and the verbatim suffix
    storage (growable buffer plus current length). -/
structure Scanner where
  tags : List Tag
  verbatimBuf : List Byte
  verbatimLength : Nat
deriving DecidableEq

/-- A freshly created scanner (`ts_calloc` zero-initialization). -/
def freshScanner : Scanner := ⟨[], [], 0⟩

/-- The suffix bytes currently stored (the first `verbatim_length` bytes of
    the verbatim buffer). -/
def storedSuffix (s : Scanner) : List Byte := s.verbatimBuf.take s.verbatimLength

/-- `in_foreign_content`: any `SVG` or `MATH` anywhere on the stack. -/
def in_foreign_content (s : Scanner) : Bool :=
  s.tags.any fun t => t.type == TagT.SVG || t.type == TagT.MATH

/-! ### Serialization (serialize / deserialize, scanner.c lines 303-404) -/

/-- `TREE_SITTER_SERIALIZATION_BUFFER_SIZE` from tree-sitter's parser.h. -/
def TS_BUFFER_SIZE : Nat := 1024

/-- The `strncpy` used when serializing a custom tag name: copies source bytes
    up to a NUL, then pads the remaining destination bytes with zeros. -/
def strncpyBytes (src : List Byte) (n : Nat) : List Byte :=
  match n, src with
  | 0, _ => []
  | m + 1, [] => List.replicate (m + 1) 0
  | m + 1, b :: rest =>
    if b % 256 = 0 then List.replicate (m + 1) 0
    else b % 256 :: strncpyBytes rest m

/-- The tag loop of `serialize`: writes each tag (type byte; for `CUSTOM`
    additionally a length byte and the name bytes) while it still fits, and
    `break`s — dropping all remaining tags — as soon as writing the next tag
    would reach `TREE_SITTER_SERIALIZATION_BUFFER_SIZE`.  Returns the bytes
    written and the number of tags serialized. -/
def serTagsGo (tags : List Tag) (size : Nat) : List Byte × Nat :=
  match tags with
  | [] => ([], 0)
  | t :: rest =>
    if t.type = TagT.CUSTOM then
      let n := min t.name.length 255
      if TS_BUFFER_SIZE ≤ size + 2 + n then ([], 0)
      else
        let r := serTagsGo rest (size + 2 + n)
        (t.type % 256 :: n :: (strncpyBytes t.name n ++ r.1), r.2 + 1)
    else
      if TS_BUFFER_SIZE ≤ size + 1 then ([], 0)
      else
        let r := serTagsGo rest (size + 1)
        (t.type % 256 :: r.1, r.2 + 1)

/-- Little-endian encoding of a `uint16_t`. -/
def u16le (n : Nat) : List Byte := [n % 256, n / 256 % 256]

/-- `serialize`: first byte is the verbatim suffix length clamped to 255,
    followed by that many suffix bytes, then the `u16` count of serialized
    tags, the `u16` logical tag count, then the serialized tags.  The returned
    list is exactly the written buffer prefix, so its length is the `unsigned`
    the C function returns. -/
def serialize (s : Scanner) : List Byte :=
  let vl := min s.verbatimLength 255
  let sfx := (List.range vl).map fun i => readB s.verbatimBuf i % 256
  let tagCount := min s.tags.length 65535
  let r := serTagsGo (s.tags.take tagCount) (1 + vl + 4)
  vl :: sfx ++ u16le r.2 ++ u16le tagCount ++ r.1

/-- The tag loop of `deserialize`: reads `count` tags starting at offset
    `size`, with no bounds check against the buffer length.  Returns the tags,
    the final offset, and the list of byte indices read. -/
def deserTagsGo (buf : List Byte) (count : Nat) (size : Nat) :
    List Tag × Nat × List Nat :=
  match count with
  | 0 => ([], size, [])
  | c + 1 =>
    let ty := readB buf size % 256
    if ty = TagT.CUSTOM then
      let n := readB buf (size + 1) % 256
      let nm := (List.range n).map fun i => readB buf (size + 2 + i) % 256
      let r := deserTagsGo buf c (size + 2 + n)
      (⟨ty, nm⟩ :: r.1, r.2.1,
        size :: (size + 1) :: ((List.range n).map fun i => size + 2 + i) ++ r.2.2)
    else
      let r := deserTagsGo buf c (size + 1)
      (⟨ty, []⟩ :: r.1, r.2.1, size :: r.2.2)

/-- `deserialize`: frees the stack and clears the suffix, then — when `length`
    is positive — restores the suffix (only when it fits within `length`),
    reads the two `u16` counts (only when they fit), reads the serialized tags
    (unchecked) and pads with `tag_new()` placeholders up to the logical
    count.  Besides the resulting scanner it returns every buffer index that
    was read, to make the access pattern auditable. -/
def deserialize (s : Scanner) (buf : List Byte) (length : Nat) :
    Scanner × List Nat :=
  let s0 : Scanner := ⟨[], s.verbatimBuf, 0⟩
  if length = 0 then (s0, [])
  else
    let vl := readB buf 0 % 256
    let step1 : Scanner × Nat × List Nat :=
      if 0 < vl ∧ 1 + vl ≤ length then
        (⟨[], overwritePrefix s.verbatimBuf
              ((List.range vl).map fun i => readB buf (1 + i) % 256), vl⟩,
         1 + vl, (List.range vl).map fun i => 1 + i)
      else (s0, 1, [])
    let s1 := step1.1
    let size1 := step1.2.1
    let r1 := step1.2.2
    if length < size1 + 4 then (s1, 0 :: r1)
    else
      let sc := readB buf size1 % 256 + 256 * (readB buf (size1 + 1) % 256)
      let tc := readB buf (size1 + 2) % 256 + 256 * (readB buf (size1 + 3) % 256)
      let headerReads := [size1, size1 + 1, size1 + 2, size1 + 3]
      if tc = 0 then (⟨[], s1.verbatimBuf, s1.verbatimLength⟩, 0 :: r1 ++ headerReads)
      else
        let r2 := deserTagsGo buf sc (size1 + 4)
        (⟨r2.1 ++ List.replicate (tc - sc) tag_new, s1.verbatimBuf, s1.verbatimLength⟩,
         0 :: r1 ++ headerReads ++ r2.2.2)

/-- Number of buffer bytes the serializer needs for one tag: a type byte, plus
    — for `CUSTOM` — a length byte and the (clamped) name bytes. -/
def tagBytes (t : Tag) : Nat :=
  if t.type = TagT.CUSTOM then 2 + min t.name.length 255 else 1

/-- The byte encoding `serialize` writes for one tag. -/
def encTag (t : Tag) : List Byte :=
  if t.type = TagT.CUSTOM then
    t.type % 256 :: min t.name.length 255 ::
      strncpyBytes t.name (min t.name.length 255)
  else [t.type % 256]

/-- Size of the complete serialized encoding of a state (suffix-length byte,
    clamped suffix, two `u16` counts, and every tag), i.e. the room the state
    needs before any overflow `break` is taken in the tag loop. -/
def serializedSize (s : Scanner) : Nat :=
  1 + min s.verbatimLength 255 + 4 + (s.tags.map tagBytes).sum

/-- Well-formedness of a scanner state as the C scanner maintains it: the
    recorded suffix length lies within the stored buffer and is at most 255,
    stored suffix bytes are bytes, tag kinds are C enum values (`< 128`, so the
    `char` cast round-trips), custom names are NUL-free byte strings of at most
    255 bytes, and only `CUSTOM` tags own a name. -/
def wfScanner (s : Scanner) : Prop :=
  s.verbatimLength ≤ 255 ∧ s.verbatimLength ≤ s.verbatimBuf.length ∧
  (∀ b ∈ storedSuffix s, b < 256) ∧
  ∀ t ∈ s.tags, t.type < 128 ∧ t.name.length ≤ 255 ∧
    (∀ b ∈ t.name, 0 < b ∧ b < 256) ∧ (t.type ≠ TagT.CUSTOM → t.name = [])

instance (s : Scanner) : Decidable (wfScanner s) := by
  unfold wfScanner
  infer_instance

/-- A state whose complete encoding needs exactly the whole 1024-byte buffer:
    5 header bytes, 1016 one-byte `P` tags, and one 3-byte custom tag. -/
def c1state : Scanner :=
  ⟨List.replicate 1016 ⟨TagT.P, []⟩ ++ [⟨TagT.CUSTOM, [97]⟩], [], 0⟩

/-! ### Lexer-cursor helpers

The lexer is a list of code points plus a cursor position; `readB` is the
lookahead (`0` past the end).  Loops that only advance while a character class
holds are expressed with `takeWhile` runs; speculative keyword matching with
`matchRun`; unboundedly scanning loops take a fuel argument that strictly
exceeds the number of loop iterations (each iteration advances the cursor by
at least one, so `2 * input.length + 8` always suffices; `none` marks the
unreachable fuel exhaustion). -/

/-- Length of the leading horizontal-whitespace run. -/
def hspaceRun (l : List Byte) : Nat := (l.takeWhile is_horizontal_space).length

/-- Length of the leading run of the four-character whitespace class. -/
def ws4Run (l : List Byte) : Nat := (l.takeWhile isWs4).length

/-- Length of the leading `iswspace` run. -/
def wsRun (l : List Byte) : Nat := (l.takeWhile iswspaceB).length

/-- Speculative keyword matching: advance while the next keyword byte matches
    the lookahead; returns the final cursor and whether the whole keyword
    matched (`while (*p && lexer->lookahead == *p) { advance; p++; }`). -/
def matchRun (kw : List Byte) (input : List Byte) (pos : Nat) : Nat × Bool :=
  match kw with
  | [] => (pos, true)
  | k :: rest =>
    if readB input pos = k then matchRun rest input (pos + 1) else (pos, false)

/-- `scan_tag_name`: read `[A-Za-z0-9:-]+`, optionally uppercase-folded;
    returns the name bytes and the cursor after them. -/
def scan_tag_name (input : List Byte) (pos : Nat) (uppercase : Bool) :
    List Byte × Nat :=
  let run := (input.drop pos).takeWhile fun c => iswalnumB c || c == 45 || c == 58
  ((if uppercase then run.map towupperB else run), pos + run.length)

/-- Result of a sub-scanner that owns the scanner state: acceptance flag,
    resulting scanner, final cursor, final end mark (if one was set) and the
    emitted token. -/
structure SubResult where
  ok : Bool
  scanner : Scanner
  pos : Nat
  marked : Option Nat
  symbol : Option Token
deriving DecidableEq

/-- Result of a sub-scanner that never touches the scanner state. -/
structure LexResult where
  ok : Bool
  pos : Nat
  marked : Option Nat
  symbol : Option Token
deriving DecidableEq

/-- `pop_tag`. -/
def pop_tag (s : Scanner) : Scanner :=
  ⟨s.tags.dropLast, s.verbatimBuf, s.verbatimLength⟩

/-! ### Verbatim start (scanner.c lines 84-118) -/

/-- Outcome of the verbatim-start loop: failure still reports the (mutated)
    suffix buffer, success reports buffer, recorded length and final cursor. -/
inductive VSOut where
  | fail (buf : List Byte) (pos : Nat)
  | success (buf : List Byte) (len : Nat) (pos : Nat)
deriving DecidableEq

/-- The loop of `scan_verbatim_start`: writes suffix bytes (as chars, i.e.
    mod 256) into the buffer as it reads them, tracking the length with
    trailing horizontal whitespace trimmed; `%}` ends the suffix, newline or
    end of input aborts. -/
def vsLoop (fuel : Nat) (input : List Byte) (pos : Nat) (buf : List Byte)
    (length lastNonSpace : Nat) : Option VSOut :=
  match fuel with
  | 0 => none
  | fuel + 1 =>
    let c := readB input pos
    if c = 0 || c = 10 then some (.fail buf pos)
    else if c = 37 then
      if readB input (pos + 1) = 125 then
        some (.success buf lastNonSpace (pos + 2))
      else
        vsLoop fuel input (pos + 1) (writeB buf length 37) (length + 1) (length + 1)
    else
      vsLoop fuel input (pos + 1) (writeB buf length (c % 256)) (length + 1)
        (if is_horizontal_space c then lastNonSpace else length + 1)

/-- `scan_verbatim_start`. -/
def scan_verbatim_start (s : Scanner) (input : List Byte) (pos : Nat) : SubResult :=
  match vsLoop (2 * input.length + 8) input pos s.verbatimBuf 0 0 with
  | some (.fail buf p) => ⟨false, ⟨s.tags, buf, s.verbatimLength⟩, p, some pos, none⟩
  | some (.success buf len p) =>
    ⟨true, ⟨s.tags, buf, len⟩, p, some p, some Token.VERBATIM_START⟩
  | none => ⟨false, s, pos, some pos, none⟩

/-! ### Verbatim content (scanner.c lines 124-169) -/

/-- The loop of `scan_verbatim_content`: at each `{` it speculatively consumes
    `%`, horizontal whitespace, `endverbatim`, the stored suffix, horizontal
    whitespace and `%}`; on a mismatch the cursor stays where the candidate
    failed and the loop advances one more byte.  `some (some p)` is success
    with the closer consumed up to `p`; `some none` is end-of-input failure. -/
def vcLoop (fuel : Nat) (sfx input : List Byte) (pos : Nat) : Option (Option Nat) :=
  match fuel with
  | 0 => none
  | fuel + 1 =>
    let c := readB input pos
    if c = 0 then some none
    else if c = 123 then
      if readB input (pos + 1) = 37 then
        let p3 := pos + 2 + hspaceRun (input.drop (pos + 2))
        let m1 := matchRun (strBytes "endverbatim") input p3
        if m1.2 then
          let m2 := matchRun sfx input m1.1
          if m2.2 then
            let p6 := m2.1 + hspaceRun (input.drop m2.1)
            if readB input p6 = 37 then
              if readB input (p6 + 1) = 125 then some (some (p6 + 2))
              else vcLoop fuel sfx input (p6 + 2)
            else vcLoop fuel sfx input (p6 + 1)
          else vcLoop fuel sfx input (m2.1 + 1)
        else vcLoop fuel sfx input (m1.1 + 1)
      else vcLoop fuel sfx input (pos + 2)
    else vcLoop fuel sfx input (pos + 1)

/-- `scan_verbatim_content`: on success the whole block including the closing
    tag is consumed and the suffix is cleared. -/
def scan_verbatim_content (s : Scanner) (input : List Byte) (pos : Nat) : SubResult :=
  let sfx := (List.range s.verbatimLength).map fun i => readB s.verbatimBuf i
  match vcLoop (2 * input.length + 8) sfx input pos with
  | some (some endPos) =>
    ⟨true, ⟨s.tags, s.verbatimBuf, 0⟩, endPos, some endPos,
      some Token.VERBATIM_BLOCK_CONTENT⟩
  | _ => ⟨false, s, pos, some pos, none⟩

/-! ### Generic-tag validator (scanner.c lines 173-301) -/

/-- The reserved built-in Django tag keywords (scanner.c lines 173-202). -/
def BUILTIN_DJANGO_TAGS : List String :=
  ["if", "elif", "else", "endif",
   "for", "empty", "endfor",
   "with", "endwith",
   "block", "endblock",
   "extends", "include", "load", "url", "csrf_token",
   "autoescape", "endautoescape",
   "filter", "endfilter",
   "spaceless", "endspaceless",
   "verbatim", "endverbatim",
   "cycle", "firstof", "now", "regroup",
   "ifchanged", "endifchanged",
   "widthratio", "templatetag", "debug", "lorem", "resetcycle",
   "querystring",
   "partialdef", "endpartialdef", "partial",
   "comment", "endcomment"]

/-- `is_builtin_django_tag`. -/
def is_builtin_django_tag (n : List Byte) : Bool :=
  BUILTIN_DJANGO_TAGS.any fun kw => n == strBytes kw

/-- The lookahead search of `scan_validate_generic_tag`: hunts for `{%`,
    whitespace, the end tag, followed by whitespace or `%`.  `some true` found,
    `some false` end of input without a match. -/
def vgSearch (fuel : Nat) (endTag input : List Byte) (pos : Nat) :
    Option (Bool × Nat) :=
  match fuel with
  | 0 => none
  | fuel + 1 =>
    let c := readB input pos
    if c = 0 then some (false, pos)
    else if c = 123 then
      if readB input (pos + 1) = 37 then
        let p3 := pos + 2 + ws4Run (input.drop (pos + 2))
        let m := matchRun endTag input p3
        if m.2 then
          let f := readB input m.1
          if f = 32 || f = 9 || f = 13 || f = 10 || f = 37 then some (true, m.1)
          else vgSearch fuel endTag input m.1
        else vgSearch fuel endTag input m.1
      else vgSearch fuel endTag input (pos + 1)
    else vgSearch fuel endTag input (pos + 1)

/-- `scan_validate_generic_tag`: zero-width (the end mark stays at the entry
    cursor); reads an identifier bounded at 255 bytes, rejects empty, built-in
    or `end`-prefixed names; with `VALIDATE_GENERIC_BLOCK` valid it searches
    for a matching end tag, else falls back to `VALIDATE_GENERIC_SIMPLE`. -/
def scan_validate_generic_tag (input : List Byte) (pos : Nat) (valid : Valid) :
    LexResult :=
  let c := readB input pos
  if !(iswalphaB c || c == 95) then ⟨false, pos, some pos, none⟩
  else
    let tagName :=
      (((input.drop pos).takeWhile fun b => iswalnumB b || b == 95).take 255)
    let p1 := pos + tagName.length
    if tagName.length = 0 then ⟨false, p1, some pos, none⟩
    else if is_builtin_django_tag tagName then ⟨false, p1, some pos, none⟩
    else if 3 ≤ tagName.length ∧ readB tagName 0 = 101 ∧ readB tagName 1 = 110 ∧
        readB tagName 2 = 100 then
      ⟨false, p1, some pos, none⟩
    else if valid .VALIDATE_GENERIC_BLOCK then
      match vgSearch (2 * input.length + 8) (strBytes "end" ++ tagName) input p1 with
      | some (true, p) => ⟨true, p, some pos, some Token.VALIDATE_GENERIC_BLOCK⟩
      | some (false, p) =>
        if valid .VALIDATE_GENERIC_SIMPLE then
          ⟨true, p, some pos, some Token.VALIDATE_GENERIC_SIMPLE⟩
        else ⟨false, p, some pos, none⟩
      | none => ⟨false, p1, some pos, none⟩
    else if valid .VALIDATE_GENERIC_SIMPLE then
      ⟨true, p1, some pos, some Token.VALIDATE_GENERIC_SIMPLE⟩
    else ⟨false, p1, some pos, none⟩

/-- Spec-modelled (C4): the byte values accepted after a matched end tag —
    space, tab, carriage return, newline, or `%`. -/
def isFollower (b : Byte) : Prop := b = 32 ∨ b = 9 ∨ b = 13 ∨ b = 10 ∨ b = 37

/-- Spec-modelled (C4): the bytes of `l` occur verbatim in `input` starting at
    position `r`. -/
def segMatches (input : List Byte) (r : Nat) (l : List Byte) : Prop :=
  ∀ i, i < l.length → readB input (r + i) = readB l i

/-- Spec-modelled (C4): a closing tag occurrence at position `q` — `{%`,
    optional whitespace, the literal end-tag bytes, then whitespace or `%`. -/
def closerAt (endTag input : List Byte) (q : Nat) : Prop :=
  readB input q = 123 ∧ readB input (q + 1) = 37 ∧
  ∃ w, (∀ i, i < w → isWs4 (readB input (q + 2 + i)) = true) ∧
    segMatches input (q + 2 + w) endTag ∧
    isFollower (readB input (q + 2 + w + endTag.length))

/-! ### HTML comment DFA (scanner.c lines 425-563) -/

/-- The states of the HTML comment state machine. -/
inductive CState where
  | START | START_DASH | BODY | LT | LT_BANG | LT_BANG_DASH | LT_BANG_DASH_DASH
  | END_DASH | ENDS | END_BANG
deriving DecidableEq

/-- The comment state machine, entered after `<!--` has been consumed.  It
    accepts (returning the cursor, which is also the end mark) on the various
    `>` terminators and leniently at end of input; it never rejects. -/
def commentLoop (fuel : Nat) (input : List Byte) (pos : Nat) (st : CState) :
    Option Nat :=
  match fuel with
  | 0 => none
  | fuel + 1 =>
    let c := readB input pos
    if c = 0 then some pos
    else
      match st with
      | .START =>
        if c = 45 then commentLoop fuel input (pos + 1) .START_DASH
        else if c = 62 then some (pos + 1)
        else commentLoop fuel input (pos + 1) .BODY
      | .START_DASH =>
        if c = 45 then commentLoop fuel input (pos + 1) .ENDS
        else if c = 62 then some (pos + 1)
        else commentLoop fuel input (pos + 1) .BODY
      | .BODY =>
        if c = 60 then commentLoop fuel input (pos + 1) .LT
        else if c = 45 then commentLoop fuel input (pos + 1) .END_DASH
        else commentLoop fuel input (pos + 1) .BODY
      | .LT =>
        if c = 33 then commentLoop fuel input (pos + 1) .LT_BANG
        else if c = 60 then commentLoop fuel input (pos + 1) .BODY
        else commentLoop fuel input pos .BODY
      | .LT_BANG =>
        if c = 45 then commentLoop fuel input (pos + 1) .LT_BANG_DASH
        else commentLoop fuel input pos .BODY
      | .LT_BANG_DASH =>
        if c = 45 then commentLoop fuel input (pos + 1) .LT_BANG_DASH_DASH
        else commentLoop fuel input pos .END_DASH
      | .LT_BANG_DASH_DASH =>
        commentLoop fuel input pos .ENDS
      | .END_DASH =>
        if c = 45 then commentLoop fuel input (pos + 1) .ENDS
        else commentLoop fuel input (pos + 1) .BODY
      | .ENDS =>
        if c = 62 then some (pos + 1)
        else if c = 33 then commentLoop fuel input (pos + 1) .END_BANG
        else if c = 45 then commentLoop fuel input (pos + 1) .ENDS
        else commentLoop fuel input (pos + 1) .BODY
      | .END_BANG =>
        if c = 45 then commentLoop fuel input (pos + 1) .END_DASH
        else if c = 62 then some (pos + 1)
        else commentLoop fuel input (pos + 1) .BODY

/-- `scan_comment`, called with the cursor just past `<!`: it first demands
    two dashes, then runs the state machine. -/
def scan_comment (input : List Byte) (pos : Nat) : LexResult :=
  if readB input pos ≠ 45 then ⟨false, pos, none, none⟩
  else if readB input (pos + 1) ≠ 45 then ⟨false, pos + 1, none, none⟩
  else
    match commentLoop (2 * input.length + 8) input (pos + 2) .START with
    | some p => ⟨true, p, some p, some Token.COMMENT⟩
    | none => ⟨false, pos + 2, none, none⟩

/-! ### Raw text / RCDATA text (scanner.c lines 566-680) -/

/-- The shared loop of `scan_raw_text` / `scan_rcdata_text`: a naive matcher
    for the uppercase end-tag sentinel that resets its index on mismatch
    without re-examining the mismatching byte, stopping before `{{` / `{%` /
    `{#`, at end of input, or when the sentinel matched completely.  Returns
    final cursor, end mark, and whether content was marked. -/
def rawLoop (fuel : Nat) (delim input : List Byte) (pos idx marked : Nat)
    (hasC : Bool) : Option (Nat × Nat × Bool) :=
  match fuel with
  | 0 => none
  | fuel + 1 =>
    let c := readB input pos
    if c = 0 then some (pos, marked, hasC)
    else if towupperB c = readB delim idx then
      if idx + 1 = delim.length then some (pos, marked, hasC)
      else rawLoop fuel delim input (pos + 1) (idx + 1) marked hasC
    else if c = 123 then
      let c2 := readB input (pos + 1)
      if c2 = 123 || c2 = 37 || c2 = 35 then some (pos + 1, pos, hasC)
      else rawLoop fuel delim input (pos + 2) 0 (pos + 2) true
    else rawLoop fuel delim input (pos + 1) 0 (pos + 1) true

/-- `scan_raw_text`: requires a `SCRIPT` or `STYLE` stack top, emits
    `RAW_TEXT` only when at least one content byte was marked. -/
def scan_raw_text (s : Scanner) (input : List Byte) (pos : Nat) : SubResult :=
  match s.tags.getLast? with
  | none => ⟨false, s, pos, none, none⟩
  | some t =>
    if t.type ≠ TagT.SCRIPT ∧ t.type ≠ TagT.STYLE then ⟨false, s, pos, none, none⟩
    else
      let delim := if t.type = TagT.SCRIPT then strBytes "</SCRIPT" else strBytes "</STYLE"
      match rawLoop (2 * input.length + 8) delim input pos 0 pos false with
      | some (p, m, hasC) =>
        if hasC then ⟨true, s, p, some m, some Token.RAW_TEXT⟩
        else ⟨false, s, p, some m, none⟩
      | none => ⟨false, s, pos, some pos, none⟩

/-- `scan_rcdata_text`: like raw text with the `</TITLE` / `</TEXTAREA`
    sentinel chosen from the stack top. -/
def scan_rcdata_text (s : Scanner) (input : List Byte) (pos : Nat) : SubResult :=
  match s.tags.getLast? with
  | none => ⟨false, s, pos, none, none⟩
  | some t =>
    if t.type ≠ TagT.TITLE ∧ t.type ≠ TagT.TEXTAREA then ⟨false, s, pos, none, none⟩
    else
      let delim := if t.type = TagT.TITLE then strBytes "</TITLE" else strBytes "</TEXTAREA"
      match rawLoop (2 * input.length + 8) delim input pos 0 pos false with
      | some (p, m, hasC) =>
        if hasC then ⟨true, s, p, some m, some Token.RCDATA_TEXT⟩
        else ⟨false, s, p, some m, none⟩
      | none => ⟨false, s, pos, some pos, none⟩

/-- `scan_plaintext_text`: consumes everything up to end of input (or an
    embedded NUL lookahead), pops the `PLAINTEXT` tag. -/
def scan_plaintext_text (s : Scanner) (input : List Byte) (pos : Nat) : SubResult :=
  match s.tags.getLast? with
  | none => ⟨false, s, pos, none, none⟩
  | some t =>
    if t.type ≠ TagT.PLAINTEXT then ⟨false, s, pos, none, none⟩
    else
      let p := pos + ((input.drop pos).takeWhile fun c => c ≠ 0).length
      ⟨true, pop_tag s, p, some p, some Token.PLAINTEXT_TEXT⟩

/-! ### Django block-comment body (scanner.c lines 702-752) -/

/-- The loop of `scan_django_comment_content`: the end mark is placed before
    each `{` that is tried; on finding `{% endcomment %}` the scanner returns
    with the mark still before the `{`, leaving the closing tag unconsumed.
    `some (some (mark, cursor))` is success; `some none` end-of-input. -/
def dcLoop (fuel : Nat) (input : List Byte) (pos marked : Nat) :
    Option (Option (Nat × Nat)) :=
  match fuel with
  | 0 => none
  | fuel + 1 =>
    let c := readB input pos
    if c = 0 then some none
    else if c = 123 then
      if readB input (pos + 1) = 37 then
        let p3 := pos + 2 + ws4Run (input.drop (pos + 2))
        let m := matchRun (strBytes "endcomment") input p3
        if m.2 then
          let p4 := m.1 + ws4Run (input.drop m.1)
          if readB input p4 = 37 then
            if readB input (p4 + 1) = 125 then some (some (pos, p4 + 1))
            else dcLoop fuel input (p4 + 1) pos
          else dcLoop fuel input p4 pos
        else dcLoop fuel input m.1 pos
      else dcLoop fuel input (pos + 1) pos
    else dcLoop fuel input (pos + 1) marked

/-- `scan_django_comment_content`. -/
def scan_django_comment_content (input : List Byte) (pos : Nat) : LexResult :=
  match dcLoop (2 * input.length + 8) input pos pos with
  | some (some r) => ⟨true, r.2, some r.1, some Token.DJANGO_COMMENT_CONTENT⟩
  | _ => ⟨false, pos, some pos, none⟩

/-! ### Tag-name scanners (scanner.c lines 759-937) -/

/-- `scan_implicit_end_tag`. -/
def scan_implicit_end_tag (s : Scanner) (input : List Byte) (pos : Nat) : SubResult :=
  let foreign := in_foreign_content s
  let parent? := s.tags.getLast?
  if !foreign ∧ parent?.isSome ∧ input.length ≤ pos then
    ⟨true, pop_tag s, pos, none, some Token.IMPLICIT_END_TAG⟩
  else
    let isClosing : Bool := readB input pos == 47
    if !isClosing && (match parent? with | some p => tag_is_void p | none => false) then
      ⟨true, pop_tag s, pos, none, some Token.IMPLICIT_END_TAG⟩
    else
      let start := if isClosing then pos + 1 else pos
      let uppercase := !foreign ||
        (match parent? with | some p => p.type != TagT.CUSTOM | none => false)
      let r := scan_tag_name input start uppercase
      let tagName := r.1
      let p2 := r.2
      if tagName.length = 0 ∧ ¬ input.length ≤ p2 then ⟨false, s, p2, none, none⟩
      else
        let next := tag_for_name tagName
        if isClosing then
          if (match s.tags.getLast? with
              | some topTag => tag_eq topTag next
              | none => false) then
            ⟨false, s, p2, none, none⟩
          else if s.tags.any fun t => tag_eq t next then
            ⟨true, pop_tag s, p2, none, some Token.IMPLICIT_END_TAG⟩
          else ⟨false, s, p2, none, none⟩
        else
          match parent? with
          | some p =>
            if !foreign ∧ (¬ tag_can_contain p next = true ∨
                ((p.type = TagT.HTML ∨ p.type = TagT.HEAD ∨ p.type = TagT.BODY) ∧
                  input.length ≤ p2)) then
              ⟨true, pop_tag s, p2, none, some Token.IMPLICIT_END_TAG⟩
            else ⟨false, s, p2, none, none⟩
          | none => ⟨false, s, p2, none, none⟩

/-- `scan_start_tag_name`. -/
def scan_start_tag_name (s : Scanner) (input : List Byte) (pos : Nat) : SubResult :=
  let foreign := in_foreign_content s
  let r := scan_tag_name input pos !foreign
  let tagName := r.1
  let p1 := r.2
  if tagName.length = 0 then ⟨false, s, p1, none, none⟩
  else if foreign then
    ⟨true, ⟨s.tags ++ [⟨TagT.CUSTOM, tagName⟩], s.verbatimBuf, s.verbatimLength⟩,
      p1, none, some Token.FOREIGN_START_TAG_NAME⟩
  else
    let tag := tag_for_name tagName
    if tag_is_void tag then ⟨true, s, p1, none, some Token.VOID_START_TAG_NAME⟩
    else
      let sym :=
        if tag.type = TagT.SCRIPT then Token.SCRIPT_START_TAG_NAME
        else if tag.type = TagT.STYLE then Token.STYLE_START_TAG_NAME
        else if tag.type = TagT.TITLE then Token.TITLE_START_TAG_NAME
        else if tag.type = TagT.TEXTAREA then Token.TEXTAREA_START_TAG_NAME
        else if tag.type = TagT.PLAINTEXT then Token.PLAINTEXT_START_TAG_NAME
        else if tag.type = TagT.SVG ∨ tag.type = TagT.MATH then
          Token.FOREIGN_START_TAG_NAME
        else Token.HTML_START_TAG_NAME
      ⟨true, ⟨s.tags ++ [tag], s.verbatimBuf, s.verbatimLength⟩, p1, none, some sym⟩

/-- `scan_end_tag_name`: pops on a top match, recognizes (without popping) a
    deeper match, otherwise flags an erroneous end tag. -/
def scan_end_tag_name (s : Scanner) (input : List Byte) (pos : Nat) : SubResult :=
  let foreign := in_foreign_content s
  let uppercase := !foreign ||
    (match s.tags.getLast? with
     | some t => t.type == TagT.SVG || t.type == TagT.MATH
     | none => false)
  let r := scan_tag_name input pos uppercase
  let tagName := r.1
  let p1 := r.2
  if tagName.length = 0 then ⟨false, s, p1, none, none⟩
  else
    let tag : Tag :=
      if foreign ∧ !uppercase then ⟨TagT.CUSTOM, tagName⟩ else tag_for_name tagName
    if (match s.tags.getLast? with
        | some topTag => tag_eq topTag tag
        | none => false) then
      ⟨true, pop_tag s, p1, none, some Token.END_TAG_NAME⟩
    else if s.tags.any fun t => tag_eq t tag then
      ⟨true, s, p1, none, some Token.END_TAG_NAME⟩
    else
      ⟨true, s, p1, none, some Token.ERRONEOUS_END_TAG_NAME⟩

/-- `scan_self_closing_tag_delimiter`: reads `/>`; in foreign content the
    self-close pops the top. -/
def scan_self_closing_tag_delimiter (s : Scanner) (input : List Byte) (pos : Nat) :
    SubResult :=
  if readB input (pos + 1) = 62 then
    let s' := if in_foreign_content s ∧ s.tags ≠ [] then pop_tag s else s
    ⟨true, s', pos + 2, none, some Token.SELF_CLOSING_TAG_DELIMITER⟩
  else ⟨false, s, pos + 1, none, none⟩

/-! ### Dispatcher (scanner.c lines 939-1050) -/

/-- The `valid_start_tag` disjunction from `scan`. -/
def valid_start_tag (valid : Valid) : Bool :=
  valid .HTML_START_TAG_NAME || valid .VOID_START_TAG_NAME ||
  valid .FOREIGN_START_TAG_NAME || valid .SCRIPT_START_TAG_NAME ||
  valid .STYLE_START_TAG_NAME || valid .TITLE_START_TAG_NAME ||
  valid .TEXTAREA_START_TAG_NAME || valid .PLAINTEXT_START_TAG_NAME

/-- The `valid_end_tag` disjunction from `scan`. -/
def valid_end_tag (valid : Valid) : Bool :=
  valid .END_TAG_NAME || valid .ERRONEOUS_END_TAG_NAME

/-- The cursor after the dispatcher's `iswspace` skipping loop. -/
def wsSkip (input : List Byte) (pos : Nat) : Nat := pos + wsRun (input.drop pos)

/-- `scan`: dispatches to exactly one sub-scanner based on the validity
    vector and, after skipping whitespace, the next character. -/
def scan (s : Scanner) (input : List Byte) (pos : Nat) (valid : Valid) : SubResult :=
  if valid .DJANGO_COMMENT_CONTENT then
    let r := scan_django_comment_content input pos
    ⟨r.ok, s, r.pos, r.marked, r.symbol⟩
  else if valid .VERBATIM_START then scan_verbatim_start s input pos
  else if valid .VERBATIM_BLOCK_CONTENT then scan_verbatim_content s input pos
  else if valid .VALIDATE_GENERIC_BLOCK || valid .VALIDATE_GENERIC_SIMPLE then
    let r := scan_validate_generic_tag input pos valid
    ⟨r.ok, s, r.pos, r.marked, r.symbol⟩
  else if valid .FILTER_COLON ∧ readB input pos = 58 then
    if readB input (pos + 1) = 34 ∨ readB input (pos + 1) = 39 ∨
        (48 ≤ readB input (pos + 1) ∧ readB input (pos + 1) ≤ 57) ∨
        readB input (pos + 1) = 43 ∨ readB input (pos + 1) = 45 ∨
        readB input (pos + 1) = 46 ∨
        (97 ≤ readB input (pos + 1) ∧ readB input (pos + 1) ≤ 122) ∨
        (65 ≤ readB input (pos + 1) ∧ readB input (pos + 1) ≤ 90) ∨
        readB input (pos + 1) = 95 then
      ⟨true, s, pos + 1, some (pos + 1), some Token.FILTER_COLON⟩
    else ⟨false, s, pos + 1, some pos, none⟩
  else if valid .RAW_TEXT && !valid_end_tag valid && !valid_start_tag valid then
    scan_raw_text s input pos
  else if valid .RCDATA_TEXT && !valid_end_tag valid && !valid_start_tag valid then
    scan_rcdata_text s input pos
  else if valid .PLAINTEXT_TEXT then scan_plaintext_text s input pos
  else if readB input (wsSkip input pos) = 60 then
    if readB input (wsSkip input pos + 1) = 33 then
      let r := scan_comment input (wsSkip input pos + 2)
      ⟨r.ok, s, r.pos, r.marked, r.symbol⟩
    else if valid .IMPLICIT_END_TAG then
      scan_implicit_end_tag s input (wsSkip input pos + 1)
    else ⟨false, s, wsSkip input pos + 1, some (wsSkip input pos), none⟩
  else if readB input (wsSkip input pos) = 0 then
    if valid .IMPLICIT_END_TAG then scan_implicit_end_tag s input (wsSkip input pos)
    else ⟨false, s, wsSkip input pos, none, none⟩
  else if readB input (wsSkip input pos) = 47 then
    if valid .SELF_CLOSING_TAG_DELIMITER then
      scan_self_closing_tag_delimiter s input (wsSkip input pos)
    else ⟨false, s, wsSkip input pos, none, none⟩
  else if (valid_start_tag valid || valid_end_tag valid) && !(valid .RAW_TEXT) then
    if valid_end_tag valid then scan_end_tag_name s input (wsSkip input pos)
    else scan_start_tag_name s input (wsSkip input pos)
  else ⟨false, s, wsSkip input pos, none, none⟩

/-! ### Helper lemmas about the comment state machine (for C9) -/

/-- Reading past an appended prefix. -/
theorem readB_append (pre l : List Byte) (k : Nat) :
    readB (pre ++ l) (pre.length + k) = readB l k := by
  simp only [readB, List.getD]
  rw [List.get?_append_right (Nat.le_add_right _ _)]
  simp

/-- A nonzero lookahead means the cursor is within the input. -/
theorem lt_length_of_readB_ne_zero {input : List Byte} {pos : Nat}
    (h : readB input pos ≠ 0) : pos < input.length := by
  by_contra hge
  refine h ?_
  simp only [readB, List.getD]
  rw [List.get?_eq_none.mpr (Nat.le_of_not_lt hge)]
  rfl

/-- Fuel rank of a comment state: the four `<`-shaped states may take one
    transition that does not advance the cursor. -/
def rankC (st : CState) : Nat :=
  match st with
  | .LT | .LT_BANG | .LT_BANG_DASH | .LT_BANG_DASH_DASH => 2
  | _ => 1

/-- The comment state machine never runs out of sufficient fuel: every
    iteration either advances the cursor or drops the state rank. -/
theorem commentLoop_isSome (input : List Byte) : ∀ fuel pos st,
    2 * (input.length - pos) + rankC st + 1 ≤ fuel →
    (commentLoop fuel input pos st).isSome = true := by
  intro fuel
  induction fuel with
  | zero => intro pos st h; omega
  | succ n ih =>
    intro pos st h
    by_cases hc : readB input pos = 0
    · cases st <;> simp [commentLoop, hc]
    · have hlt := lt_length_of_readB_ne_zero hc
      cases st <;>
        simp only [commentLoop, if_neg hc] <;>
        (repeat' split) <;>
        (first
          | simp
          | (apply ih; simp only [rankC] at h ⊢; omega))

/-- Walking the `BODY` state over bytes that are not NUL, `-` or `<` just
    advances the cursor. -/
theorem commentLoop_walk (body : List Byte)
    (h : ∀ c ∈ body, c ≠ 0 ∧ c ≠ 45 ∧ c ≠ 60) :
    ∀ (pre tail : List Byte) (fuel : Nat),
    commentLoop (body.length + fuel) (pre ++ (body ++ tail)) pre.length .BODY =
      commentLoop fuel (pre ++ (body ++ tail)) (pre.length + body.length) .BODY := by
  induction body with
  | nil => intro pre tail fuel; simp
  | cons b bs ih =>
    intro pre tail fuel
    obtain ⟨hb0, hb45, hb60⟩ := h b (by simp)
    have hread : readB (pre ++ (b :: bs ++ tail)) pre.length = b := by
      simpa using readB_append pre (b :: (bs ++ tail)) 0
    have hstep :
        commentLoop (bs.length + fuel + 1) (pre ++ (b :: bs ++ tail)) pre.length .BODY =
        commentLoop (bs.length + fuel) (pre ++ (b :: bs ++ tail)) (pre.length + 1) .BODY := by
      simp only [commentLoop, hread, if_neg hb0, if_neg hb60, if_neg hb45]
    have hsplit : pre ++ (b :: bs ++ tail) = (pre ++ [b]) ++ (bs ++ tail) := by
      simp
    have := ih (fun c hc => h c (by simp [hc])) (pre ++ [b]) tail fuel
    rw [hsplit] at hstep ⊢
    simp only [List.length_append, List.length_cons, List.length_nil] at hstep ⊢
    calc commentLoop (bs.length + 1 + fuel) ((pre ++ [b]) ++ (bs ++ tail)) pre.length .BODY
        = commentLoop (bs.length + fuel + 1) ((pre ++ [b]) ++ (bs ++ tail)) pre.length .BODY := by
          ring_nf
      _ = commentLoop (bs.length + fuel) ((pre ++ [b]) ++ (bs ++ tail)) (pre.length + 1) .BODY := hstep
      _ = commentLoop fuel ((pre ++ [b]) ++ (bs ++ tail)) (pre.length + 1 + bs.length) .BODY := by
          have := ih (fun c hc => h c (by simp [hc])) (pre ++ [b]) tail fuel
          simpa using this
      _ = _ := by ring_nf

/-- Accept `>` from the opener state (source `<!-->`). -/
theorem commentLoop_start_gt (input : List Byte) (p fuel : Nat)
    (h : readB input p = 62) :
    commentLoop (fuel + 1) input p .START = some (p + 1) := by
  simp [commentLoop, h]

/-- Accept `->` from the opener state (source `<!--->`). -/
theorem commentLoop_start_dash_gt (input : List Byte) (p fuel : Nat)
    (h1 : readB input p = 45) (h2 : readB input (p + 1) = 62) :
    commentLoop (fuel + 2) input p .START = some (p + 2) := by
  simp [commentLoop, h1, h2]

/-- Accept `-->` from the opener state (source `<!---->` or after a body). -/
theorem commentLoop_start_dashes_gt (input : List Byte) (p fuel : Nat)
    (h1 : readB input p = 45) (h2 : readB input (p + 1) = 45)
    (h3 : readB input (p + 2) = 62) :
    commentLoop (fuel + 3) input p .START = some (p + 3) := by
  simp [commentLoop, h1, h2, h3]

/-- Accept `--!>` from the opener state. -/
theorem commentLoop_start_bang_gt (input : List Byte) (p fuel : Nat)
    (h1 : readB input p = 45) (h2 : readB input (p + 1) = 45)
    (h3 : readB input (p + 2) = 33) (h4 : readB input (p + 3) = 62) :
    commentLoop (fuel + 4) input p .START = some (p + 4) := by
  simp [commentLoop, h1, h2, h3, h4]

/-- Lenient end of input accepts at the cursor in any state. -/
theorem commentLoop_eof (input : List Byte) (p fuel : Nat) (st : CState)
    (h : readB input p = 0) :
    commentLoop (fuel + 1) input p st = some p := by
  simp [commentLoop, h]

/-- A byte that is not NUL, `-` or `>` moves the opener state into the body. -/
theorem commentLoop_start_into_body (input : List Byte) (p fuel : Nat)
    (h0 : readB input p ≠ 0) (h45 : readB input p ≠ 45) (h62 : readB input p ≠ 62) :
    commentLoop (fuel + 1) input p .START = commentLoop fuel input (p + 1) .BODY := by
  simp [commentLoop, h0, h45, h62]

/-- Accept `-->` from the body state. -/
theorem commentLoop_body_dashes_gt (input : List Byte) (p fuel : Nat)
    (h1 : readB input p = 45) (h2 : readB input (p + 1) = 45)
    (h3 : readB input (p + 2) = 62) :
    commentLoop (fuel + 3) input p .BODY = some (p + 3) := by
  simp [commentLoop, h1, h2, h3]

/-- Accept `--!>` from the body state. -/
theorem commentLoop_body_bang_gt (input : List Byte) (p fuel : Nat)
    (h1 : readB input p = 45) (h2 : readB input (p + 1) = 45)
    (h3 : readB input (p + 2) = 33) (h4 : readB input (p + 3) = 62) :
    commentLoop (fuel + 4) input p .BODY = some (p + 4) := by
  simp [commentLoop, h1, h2, h3, h4]

/-- Running the machine from the opener state across a clean body (no NUL,
    `-`, `<` or `>`) reaches the position after the body in the opener state
    (empty body) or the body state. -/
theorem commentLoop_after_body (body tail : List Byte)
    (h : ∀ c ∈ body, c ≠ 0 ∧ c ≠ 45 ∧ c ≠ 60 ∧ c ≠ 62) (fuel : Nat) :
    ∃ st', (st' = CState.START ∨ st' = CState.BODY) ∧
      commentLoop (body.length + fuel) (45 :: 45 :: (body ++ tail)) 2 .START =
        commentLoop fuel (45 :: 45 :: (body ++ tail)) (2 + body.length) st' := by
  cases body with
  | nil => exact ⟨.START, Or.inl rfl, by simp⟩
  | cons b bs =>
    refine ⟨.BODY, Or.inr rfl, ?_⟩
    obtain ⟨hb0, hb45, hb60, hb62⟩ := h b (by simp)
    have hread2 : readB (45 :: 45 :: ((b :: bs) ++ tail)) 2 = b := by
      simp [readB]
    have hlen : (b :: bs).length + fuel = (bs.length + fuel) + 1 := by
      simp only [List.length_cons]; omega
    rw [hlen]
    rw [commentLoop_start_into_body _ 2 _ (by rw [hread2]; exact hb0)
      (by rw [hread2]; exact hb45) (by rw [hread2]; exact hb62)]
    have hwalk := commentLoop_walk bs
      (fun c hc => ⟨(h c (by simp [hc])).1, (h c (by simp [hc])).2.1,
        (h c (by simp [hc])).2.2.1⟩) [45, 45, b] tail fuel
    simp only [List.cons_append, List.nil_append, List.length_cons,
      List.length_nil] at hwalk ⊢
    rw [show (2 : Nat) + 1 = 3 by rfl] at hwalk ⊢
    rw [hwalk]
    congr 1
    omega

/-- C9 counterexample: on the input `<!>` the dispatcher consumes `<!` and
    calls `scan_comment`, which first demands two dashes and rejects, so no
    `COMMENT` is emitted — contradicting the claim that an immediate `>`
    following `<!` is accepted. -/
theorem html_comment_bang_gt_rejected :
    (scan freshScanner (strBytes "<!>") 0 (fun t => t == Token.COMMENT)).ok
        = false ∧
    (scan_comment (strBytes "<!>") 2).ok = false := by
  decide

/-- C9 amended: after the dispatcher has consumed `<!`, the comment scanner
    first requires `--`; it accepts (emitting `COMMENT`) exactly when those
    dashes are present, ending the token at the terminators `-->` and `--!>`
    (also directly after the opener: inputs `<!-->` and `<!--->`), and
    leniently at end of input with the token ending at the cursor.  The input
    `<!>` is rejected since `--` is mandatory.  Body bytes are restricted away
    from NUL, `-`, `<`, `>` so that the stated terminator is the first one. -/
theorem scan_comment_acceptance :
    (∀ input pos, (scan_comment input pos).ok = true ↔
      (readB input pos = 45 ∧ readB input (pos + 1) = 45)) ∧
    (∀ rest : List Byte, scan_comment (45 :: 45 :: 62 :: rest) 0 =
      ⟨true, 3, some 3, some Token.COMMENT⟩) ∧
    (∀ rest : List Byte, scan_comment (45 :: 45 :: 45 :: 62 :: rest) 0 =
      ⟨true, 4, some 4, some Token.COMMENT⟩) ∧
    (∀ body rest : List Byte, (∀ c ∈ body, c ≠ 0 ∧ c ≠ 45 ∧ c ≠ 60 ∧ c ≠ 62) →
      scan_comment (45 :: 45 :: (body ++ (45 :: 45 :: 62 :: rest))) 0 =
      ⟨true, body.length + 5, some (body.length + 5), some Token.COMMENT⟩) ∧
    (∀ body rest : List Byte, (∀ c ∈ body, c ≠ 0 ∧ c ≠ 45 ∧ c ≠ 60 ∧ c ≠ 62) →
      scan_comment (45 :: 45 :: (body ++ (45 :: 45 :: 33 :: 62 :: rest))) 0 =
      ⟨true, body.length + 6, some (body.length + 6), some Token.COMMENT⟩) ∧
    (∀ body : List Byte, (∀ c ∈ body, c ≠ 0 ∧ c ≠ 45 ∧ c ≠ 60 ∧ c ≠ 62) →
      scan_comment (45 :: 45 :: body) 0 =
      ⟨true, body.length + 2, some (body.length + 2), some Token.COMMENT⟩) := by
  have hstep :
      ∀ (body tail : List Byte),
      ∀ k, readB (45 :: 45 :: (body ++ tail)) (2 + body.length + k) = readB tail k := by
    intro body tail k
    have := readB_append (45 :: 45 :: body) tail k
    simp only [List.cons_append, List.length_cons] at this
    rw [show 2 + body.length + k = body.length + 1 + 1 + k by omega]
    exact this
  refine ⟨?_, ?_, ?_, ?_, ?_, ?_⟩
  · intro input pos
    constructor
    · intro hok
      by_cases h1 : readB input pos = 45
      · by_cases h2 : readB input (pos + 1) = 45
        · exact ⟨h1, h2⟩
        · simp [scan_comment, h1, h2] at hok
      · simp [scan_comment, h1] at hok
    · rintro ⟨h1, h2⟩
      have hsome := commentLoop_isSome input (2 * input.length + 8) (pos + 2) .START
        (by simp only [rankC]; omega)
      obtain ⟨p, hp⟩ := Option.isSome_iff_exists.mp hsome
      simp only [scan_comment]
      rw [if_neg (by simp [h1]), if_neg (by simp [h2]), hp]
  · intro rest
    have h2 : readB (45 :: 45 :: 62 :: rest) 2 = 62 := by simp [readB]
    have hrun : commentLoop (2 * (45 :: 45 :: 62 :: rest).length + 8)
        (45 :: 45 :: 62 :: rest) 2 .START = some 3 := by
      rw [show 2 * (45 :: 45 :: 62 :: rest).length + 8 =
        (2 * (45 :: 45 :: 62 :: rest).length + 7) + 1 from rfl]
      exact commentLoop_start_gt _ 2 _ h2
    simp only [scan_comment]
    rw [if_neg (by simp [readB]), if_neg (by simp [readB]), hrun]
  · intro rest
    have h2 : readB (45 :: 45 :: 45 :: 62 :: rest) 2 = 45 := by simp [readB]
    have h3 : readB (45 :: 45 :: 45 :: 62 :: rest) 3 = 62 := by simp [readB]
    have hrun : commentLoop (2 * (45 :: 45 :: 45 :: 62 :: rest).length + 8)
        (45 :: 45 :: 45 :: 62 :: rest) 2 .START = some 4 := by
      rw [show 2 * (45 :: 45 :: 45 :: 62 :: rest).length + 8 =
        (2 * (45 :: 45 :: 45 :: 62 :: rest).length + 6) + 2 from rfl]
      exact commentLoop_start_dash_gt _ 2 _ h2 h3
    simp only [scan_comment]
    rw [if_neg (by simp [readB]), if_neg (by simp [readB]), hrun]
  · intro body rest h
    have hlen : (45 :: 45 :: (body ++ (45 :: 45 :: 62 :: rest))).length =
        body.length + rest.length + 5 := by
      simp only [List.length_cons, List.length_append]; omega
    obtain ⟨st2, hst, hrun⟩ :=
      commentLoop_after_body body (45 :: 45 :: 62 :: rest) h
        (2 * (45 :: 45 :: (body ++ (45 :: 45 :: 62 :: rest))).length + 8 - body.length)
    rw [show body.length +
        (2 * (45 :: 45 :: (body ++ (45 :: 45 :: 62 :: rest))).length + 8 - body.length) =
        2 * (45 :: 45 :: (body ++ (45 :: 45 :: 62 :: rest))).length + 8 by
      rw [hlen]; omega] at hrun
    have hr1 : readB (45 :: 45 :: (body ++ (45 :: 45 :: 62 :: rest)))
        (2 + body.length) = 45 := by
      have := hstep body (45 :: 45 :: 62 :: rest) 0
      rw [Nat.add_zero] at this
      rw [this]; simp [readB]
    have hr2 : readB (45 :: 45 :: (body ++ (45 :: 45 :: 62 :: rest)))
        (2 + body.length + 1) = 45 := by
      rw [hstep body (45 :: 45 :: 62 :: rest) 1]; simp [readB]
    have hr3 : readB (45 :: 45 :: (body ++ (45 :: 45 :: 62 :: rest)))
        (2 + body.length + 2) = 62 := by
      rw [hstep body (45 :: 45 :: 62 :: rest) 2]; simp [readB]
    have hfin : commentLoop
        (2 * (45 :: 45 :: (body ++ (45 :: 45 :: 62 :: rest))).length + 8 - body.length)
        (45 :: 45 :: (body ++ (45 :: 45 :: 62 :: rest))) (2 + body.length) st2 =
        some (2 + body.length + 3) := by
      rw [show 2 * (45 :: 45 :: (body ++ (45 :: 45 :: 62 :: rest))).length + 8 -
          body.length =
          (2 * (45 :: 45 :: (body ++ (45 :: 45 :: 62 :: rest))).length + 8 -
            body.length - 3) + 3 by rw [hlen]; omega]
      rcases hst with hst | hst <;> subst hst
      · exact commentLoop_start_dashes_gt _ _ _ hr1 hr2 hr3
      · exact commentLoop_body_dashes_gt _ _ _ hr1 hr2 hr3
    rw [show 2 + body.length + 3 = body.length + 5 by omega] at hfin
    rw [hfin] at hrun
    simp only [scan_comment]
    rw [if_neg (by simp [readB]), if_neg (by simp [readB]), hrun]
  · intro body rest h
    have hlen : (45 :: 45 :: (body ++ (45 :: 45 :: 33 :: 62 :: rest))).length =
        body.length + rest.length + 6 := by
      simp only [List.length_cons, List.length_append]; omega
    obtain ⟨st2, hst, hrun⟩ :=
      commentLoop_after_body body (45 :: 45 :: 33 :: 62 :: rest) h
        (2 * (45 :: 45 :: (body ++ (45 :: 45 :: 33 :: 62 :: rest))).length + 8 -
          body.length)
    rw [show body.length +
        (2 * (45 :: 45 :: (body ++ (45 :: 45 :: 33 :: 62 :: rest))).length + 8 -
          body.length) =
        2 * (45 :: 45 :: (body ++ (45 :: 45 :: 33 :: 62 :: rest))).length + 8 by
      rw [hlen]; omega] at hrun
    have hr1 : readB (45 :: 45 :: (body ++ (45 :: 45 :: 33 :: 62 :: rest)))
        (2 + body.length) = 45 := by
      have := hstep body (45 :: 45 :: 33 :: 62 :: rest) 0
      rw [Nat.add_zero] at this
      rw [this]; simp [readB]
    have hr2 : readB (45 :: 45 :: (body ++ (45 :: 45 :: 33 :: 62 :: rest)))
        (2 + body.length + 1) = 45 := by
      rw [hstep body (45 :: 45 :: 33 :: 62 :: rest) 1]; simp [readB]
    have hr3 : readB (45 :: 45 :: (body ++ (45 :: 45 :: 33 :: 62 :: rest)))
        (2 + body.length + 2) = 33 := by
      rw [hstep body (45 :: 45 :: 33 :: 62 :: rest) 2]; simp [readB]
    have hr4 : readB (45 :: 45 :: (body ++ (45 :: 45 :: 33 :: 62 :: rest)))
        (2 + body.length + 3) = 62 := by
      rw [hstep body (45 :: 45 :: 33 :: 62 :: rest) 3]; simp [readB]
    have hfin : commentLoop
        (2 * (45 :: 45 :: (body ++ (45 :: 45 :: 33 :: 62 :: rest))).length + 8 -
          body.length)
        (45 :: 45 :: (body ++ (45 :: 45 :: 33 :: 62 :: rest))) (2 + body.length) st2 =
        some (2 + body.length + 4) := by
      rw [show 2 * (45 :: 45 :: (body ++ (45 :: 45 :: 33 :: 62 :: rest))).length + 8 -
          body.length =
          (2 * (45 :: 45 :: (body ++ (45 :: 45 :: 33 :: 62 :: rest))).length + 8 -
            body.length - 4) + 4 by rw [hlen]; omega]
      rcases hst with hst | hst <;> subst hst
      · exact commentLoop_start_bang_gt _ _ _ hr1 hr2 hr3 hr4
      · exact commentLoop_body_bang_gt _ _ _ hr1 hr2 hr3 hr4
    rw [show 2 + body.length + 4 = body.length + 6 by omega] at hfin
    rw [hfin] at hrun
    simp only [scan_comment]
    rw [if_neg (by simp [readB]), if_neg (by simp [readB]), hrun]
  · intro body h
    have hb : (45 :: 45 :: body) = 45 :: 45 :: (body ++ []) := by simp
    have hlen : (45 :: 45 :: (body ++ ([] : List Byte))).length = body.length + 2 := by
      simp
    obtain ⟨st2, hst, hrun⟩ :=
      commentLoop_after_body body [] h
        (2 * (45 :: 45 :: (body ++ ([] : List Byte))).length + 8 - body.length)
    rw [show body.length +
        (2 * (45 :: 45 :: (body ++ ([] : List Byte))).length + 8 - body.length) =
        2 * (45 :: 45 :: (body ++ ([] : List Byte))).length + 8 by
      simp only [List.length_cons, List.length_append, List.length_nil]; omega] at hrun
    have heof : readB (45 :: 45 :: (body ++ ([] : List Byte))) (2 + body.length) = 0 := by
      have hge : (45 :: 45 :: (body ++ ([] : List Byte))).length ≤ 2 + body.length := by
        simp only [List.length_cons, List.length_append, List.length_nil]; omega
      simp only [readB, List.getD]
      rw [List.get?_eq_none.mpr hge]
      rfl
    have hfin : commentLoop
        (2 * (45 :: 45 :: (body ++ ([] : List Byte))).length + 8 - body.length)
        (45 :: 45 :: (body ++ ([] : List Byte))) (2 + body.length) st2 =
        some (2 + body.length) := by
      have hsucc : 2 * (45 :: 45 :: (body ++ ([] : List Byte))).length + 8 -
          body.length =
          (2 * (45 :: 45 :: (body ++ ([] : List Byte))).length + 8 - body.length - 1)
            + 1 := by
        simp only [List.length_cons, List.length_append, List.length_nil]
        omega
      rw [hsucc]
      exact commentLoop_eof _ _ _ _ heof
    rw [show 2 + body.length = body.length + 2 by omega] at hfin hrun
    rw [hfin] at hrun
    rw [hb]
    simp only [scan_comment]
    rw [if_neg (by simp [readB]), if_neg (by simp [readB]), hrun]

/-- Witness for C9 (amended): a concrete comment `<!--xy-->` is accepted with
    the token ending after the terminator. -/
theorem scan_comment_acceptance_witness :
    (∀ c ∈ [120, 121], c ≠ 0 ∧ c ≠ 45 ∧ c ≠ 60 ∧ c ≠ 62) ∧
    scan_comment (45 :: 45 :: ([120, 121] ++ (45 :: 45 :: 62 :: []))) 0 =
      ⟨true, ([120, 121] : List Byte).length + 5,
        some (([120, 121] : List Byte).length + 5), some Token.COMMENT⟩ :=
  ⟨by decide, scan_comment_acceptance.2.2.2.1 [120, 121] [] (by decide)⟩

/-! ### Helper lemmas about the raw-text loop (for C5) -/

/-- Reading within the left part of an appended list. -/
theorem readB_append_left (l1 l2 : List Byte) (k : Nat) (h : k < l1.length) :
    readB (l1 ++ l2) k = readB l1 k := by
  simp only [readB, List.getD]
  rw [List.get?_append h]

/-- `towupper` never produces `<`. -/
theorem towupperB_ne_60 {c : Nat} (h : c ≠ 60) : towupperB c ≠ 60 := by
  simp only [towupperB]
  split
  · rename_i hc
    have hc2 : 97 ≤ c ∧ c ≤ 122 := by simpa using hc
    omega
  · exact h

/-- Walking the raw-text loop across content bytes that are not NUL, `<` or
    `{`: the match index stays 0, the end mark tracks the cursor, content is
    accumulated. -/
theorem rawLoop_walk (d : List Byte) (hd : readB d 0 = 60) (content : List Byte)
    (hclean : ∀ c ∈ content, c ≠ 0 ∧ c ≠ 60 ∧ c ≠ 123) :
    ∀ (pre tail : List Byte) (fuel : Nat) (hasC : Bool),
    rawLoop (content.length + fuel) d (pre ++ (content ++ tail)) pre.length 0
        pre.length hasC =
      rawLoop fuel d (pre ++ (content ++ tail)) (pre.length + content.length) 0
        (pre.length + content.length) (hasC || !content.isEmpty) := by
  induction content with
  | nil => intro pre tail fuel hasC; simp
  | cons c cs ih =>
    intro pre tail fuel hasC
    obtain ⟨hc0, hc60, hc123⟩ := hclean c (by simp)
    have hread : readB (pre ++ ((c :: cs) ++ tail)) pre.length = c := by
      simpa using readB_append pre ((c :: cs) ++ tail) 0
    have hlen : (c :: cs).length + fuel = (cs.length + fuel) + 1 := by
      simp only [List.length_cons]; omega
    rw [hlen]
    have hstep :
        rawLoop ((cs.length + fuel) + 1) d (pre ++ ((c :: cs) ++ tail)) pre.length 0
            pre.length hasC =
        rawLoop (cs.length + fuel) d (pre ++ ((c :: cs) ++ tail)) (pre.length + 1) 0
            (pre.length + 1) true := by
      simp only [rawLoop, hread, if_neg hc0, hd,
        if_neg (towupperB_ne_60 hc60), if_neg hc123]
    rw [hstep]
    have hsplit : pre ++ ((c :: cs) ++ tail) = (pre ++ [c]) ++ (cs ++ tail) := by simp
    have hIH := ih (fun b hb => hclean b (by simp [hb])) (pre ++ [c]) tail fuel true
    simp only [List.length_append, List.length_cons, List.length_nil] at hIH
    rw [hsplit, hIH]
    simp only [Bool.true_or, List.isEmpty_cons, Bool.not_false, Bool.or_true,
      List.length_cons]
    rw [show pre.length + 1 + cs.length = pre.length + (cs.length + 1) by omega]

/-- Completing the end-tag sentinel: once the remaining sentinel suffix is
    present at the cursor, the loop matches it and breaks at its last byte
    without touching the mark or the content flag. -/
theorem rawLoop_finish_delim (d input : List Byte) :
    ∀ (dsuf : List Byte) (j p fuel marked : Nat) (hasC : Bool),
    dsuf ≠ [] →
    j + dsuf.length = d.length →
    (∀ k, k < dsuf.length → readB input (p + k) = readB dsuf k) →
    (∀ k, k < dsuf.length → readB d (j + k) = readB dsuf k) →
    (∀ c ∈ dsuf, towupperB c = c ∧ c ≠ 0) →
    rawLoop (dsuf.length + fuel) d input p j marked hasC =
      some (p + dsuf.length - 1, marked, hasC) := by
  intro dsuf
  induction dsuf with
  | nil => intro j p fuel marked hasC hne; exact absurd rfl hne
  | cons c cs ih =>
    intro j p fuel marked hasC _ hjlen hmatch hdsuf hupper
    obtain ⟨hcup, hc0⟩ := hupper c (by simp)
    have hrp : readB input p = c := by
      have := hmatch 0 (by simp)
      simpa [readB] using this
    have hrd : readB d j = c := by
      have := hdsuf 0 (by simp)
      simpa [readB] using this
    have hlen : (c :: cs).length + fuel = (cs.length + fuel) + 1 := by
      simp only [List.length_cons]; omega
    rw [hlen]
    by_cases hend : j + 1 = d.length
    · have hcs : cs = [] := by
        have := hjlen
        simp only [List.length_cons] at this
        cases cs with
        | nil => rfl
        | cons x xs => simp only [List.length_cons] at this; omega
      subst hcs
      simp only [rawLoop, hrp, if_neg hc0, hrd, hcup, eq_self_iff_true, if_true,
        if_pos hend]
      simp
    · have hrec :
          rawLoop ((cs.length + fuel) + 1) d input p j marked hasC =
          rawLoop (cs.length + fuel) d input (p + 1) (j + 1) marked hasC := by
        simp only [rawLoop, hrp, if_neg hc0, hrd, hcup, eq_self_iff_true, if_true,
          if_neg hend]
      rw [hrec]
      have hcsne : cs ≠ [] := by
        intro hcs
        subst hcs
        simp only [List.length_cons, List.length_nil] at hjlen
        omega
      have := ih (j + 1) (p + 1) fuel marked hasC hcsne
        (by simp only [List.length_cons] at hjlen; omega)
        (fun k hk => by
          have := hmatch (k + 1) (by simp only [List.length_cons]; omega)
          rw [show p + 1 + k = p + (k + 1) by omega]
          simpa [readB] using this)
        (fun k hk => by
          have := hdsuf (k + 1) (by simp only [List.length_cons]; omega)
          rw [show j + 1 + k = j + (k + 1) by omega]
          simpa [readB] using this)
        (fun b hb => hupper b (by simp [hb]))
      rw [this]
      rw [show p + 1 + cs.length - 1 = p + (c :: cs).length - 1 by
        simp only [List.length_cons]; omega]

/-- Stopping before a Django opener: at `{` followed by `{`, `%` or `#` the
    loop breaks with the mark before the `{`. -/
theorem rawLoop_finish_django (d input : List Byte) (hd : readB d 0 = 60)
    (p fuel marked : Nat) (hasC : Bool)
    (h1 : readB input p = 123) (h2 : readB input (p + 1) = 123 ∨
      readB input (p + 1) = 37 ∨ readB input (p + 1) = 35) :
    rawLoop (fuel + 1) d input p 0 marked hasC = some (p + 1, p, hasC) := by
  have : towupperB 123 = 123 := by decide
  simp only [rawLoop, h1, if_neg (by omega : (123 : Nat) ≠ 0), hd, this,
    if_neg (by omega : (123 : Nat) ≠ 60), if_pos rfl]
  rcases h2 with h2 | h2 | h2 <;> simp [h2]

/-- Stopping at end of input. -/
theorem rawLoop_finish_eof (d input : List Byte) (p fuel marked idx : Nat)
    (hasC : Bool) (h : readB input p = 0) :
    rawLoop (fuel + 1) d input p idx marked hasC = some (p, marked, hasC) := by
  simp [rawLoop, h]

/-- The three termination modes of the raw-text loop on clean content:
    sentinel, Django opener, end of input. -/
theorem rawLoop_main (d : List Byte) (hd0 : readB d 0 = 60)
    (hupper : ∀ c ∈ d, towupperB c = c ∧ c ≠ 0) (hdne : d ≠ [])
    (content : List Byte) (hclean : ∀ c ∈ content, c ≠ 0 ∧ c ≠ 60 ∧ c ≠ 123) :
    (∀ (rest : List Byte) (fuel : Nat), content.length + d.length ≤ fuel →
      rawLoop fuel d (content ++ (d ++ rest)) 0 0 0 false =
        some (content.length + d.length - 1, content.length, !content.isEmpty)) ∧
    (∀ (c2 : Byte) (rest : List Byte) (fuel : Nat), content.length + 1 ≤ fuel →
      (c2 = 123 ∨ c2 = 37 ∨ c2 = 35) →
      rawLoop fuel d (content ++ (123 :: c2 :: rest)) 0 0 0 false =
        some (content.length + 1, content.length, !content.isEmpty)) ∧
    (∀ fuel : Nat, content.length + 1 ≤ fuel →
      rawLoop fuel d content 0 0 0 false =
        some (content.length, content.length, !content.isEmpty)) := by
  have hwalk0 : ∀ (tail : List Byte) (g : Nat),
      rawLoop (content.length + g) d (content ++ tail) 0 0 0 false =
        rawLoop g d (content ++ tail) content.length 0 content.length
          (!content.isEmpty) := by
    intro tail g
    have := rawLoop_walk d hd0 content hclean [] tail g false
    simpa using this
  refine ⟨?_, ?_, ?_⟩
  · intro rest fuel hfuel
    rw [show fuel = content.length + (fuel - content.length) by omega, hwalk0]
    have hfin := rawLoop_finish_delim d (content ++ (d ++ rest)) d 0
      content.length (fuel - content.length - d.length) content.length
      (!content.isEmpty) hdne (by omega)
      (fun k hk => by
        have h1 := readB_append content (d ++ rest) k
        have h2 := readB_append_left d rest k hk
        rw [h1, h2])
      (fun k _ => by rw [Nat.zero_add])
      hupper
    rw [show fuel - content.length = d.length + (fuel - content.length - d.length)
      by omega]
    rw [hfin]
  · intro c2 rest fuel hfuel hc2
    rw [show fuel = content.length + (fuel - content.length) by omega, hwalk0]
    rw [show fuel - content.length = (fuel - content.length - 1) + 1 by omega]
    have h1 : readB (content ++ (123 :: c2 :: rest)) content.length = 123 := by
      simpa using readB_append content (123 :: c2 :: rest) 0
    have h2 : readB (content ++ (123 :: c2 :: rest)) (content.length + 1) = c2 := by
      simpa [readB] using readB_append content (123 :: c2 :: rest) 1
    refine rawLoop_finish_django d _ hd0 content.length _ content.length _ h1 ?_
    rcases hc2 with h | h | h <;> subst h
    · exact Or.inl h2
    · exact Or.inr (Or.inl h2)
    · exact Or.inr (Or.inr h2)
  · intro fuel hfuel
    have hw := hwalk0 [] (fuel - content.length)
    simp only [List.append_nil] at hw
    rw [show fuel = content.length + (fuel - content.length) by omega, hw]
    rw [show fuel - content.length = (fuel - content.length - 1) + 1 by omega]
    refine rawLoop_finish_eof d content content.length _ content.length 0 _ ?_
    simp only [readB, List.getD]
    rw [List.get?_eq_none.mpr (Nat.le_refl _)]
    rfl

/-- C5 counterexample: with `SCRIPT` on top of the stack, the input
    `<</script>` contains its first case-insensitive occurrence of `</SCRIPT`
    at index 1, so by the claim the token should end there; but the naive
    matcher consumed the first `<` as a partial sentinel and never re-examines
    the second `<`, so the scan emits `RAW_TEXT` with its end mark at 10 —
    past the whole end tag. -/
theorem raw_text_misses_overlapped_sentinel :
    (scan_raw_text ⟨[⟨TagT.SCRIPT, []⟩], [], 0⟩ (strBytes "<</script>") 0).ok
        = true ∧
    (scan_raw_text ⟨[⟨TagT.SCRIPT, []⟩], [], 0⟩ (strBytes "<</script>") 0).marked
        = some 10 ∧
    (((strBytes "<</script>").drop 1).take 8).map towupperB = strBytes "</SCRIPT" ∧
    (10 : Nat) ≠ 1 := by
  decide

/-- C5 amended: with a `SCRIPT` (resp. `STYLE`) stack top, and content bytes
    free of NUL, `<` and `{` (so that no partial sentinel match overlaps the
    terminator), `scan_raw_text` ends the `RAW_TEXT` token at the first of:
    the case-insensitive sentinel `</SCRIPT` / `</STYLE`, the position just
    before a `{` followed by `{`, `%` or `#`, or end of input; it returns true
    (emitting `RAW_TEXT`) iff at least one content byte was produced, so an
    empty raw-text region is refused; the scanner state is untouched. -/
theorem scan_raw_text_characterization (s : Scanner) (tg : Tag)
    (htop : s.tags.getLast? = some tg) (d : List Byte)
    (hd : (tg.type = TagT.SCRIPT ∧ d = strBytes "</SCRIPT") ∨
      (tg.type = TagT.STYLE ∧ d = strBytes "</STYLE"))
    (content : List Byte) (hclean : ∀ c ∈ content, c ≠ 0 ∧ c ≠ 60 ∧ c ≠ 123) :
    (∀ rest : List Byte, scan_raw_text s (content ++ (d ++ rest)) 0 =
      ⟨!content.isEmpty, s, content.length + d.length - 1, some content.length,
        if content.isEmpty then none else some Token.RAW_TEXT⟩) ∧
    (∀ (c2 : Byte) (rest : List Byte), (c2 = 123 ∨ c2 = 37 ∨ c2 = 35) →
      scan_raw_text s (content ++ (123 :: c2 :: rest)) 0 =
      ⟨!content.isEmpty, s, content.length + 1, some content.length,
        if content.isEmpty then none else some Token.RAW_TEXT⟩) ∧
    (scan_raw_text s content 0 =
      ⟨!content.isEmpty, s, content.length, some content.length,
        if content.isEmpty then none else some Token.RAW_TEXT⟩) := by
  have hmain := fun (hd0 : readB d 0 = 60)
      (hupper : ∀ c ∈ d, towupperB c = c ∧ c ≠ 0) (hdne : d ≠ []) =>
    rawLoop_main d hd0 hupper hdne content hclean
  have hguard : ¬ (tg.type ≠ TagT.SCRIPT ∧ tg.type ≠ TagT.STYLE) := by
    rcases hd with ⟨ht, _⟩ | ⟨ht, _⟩ <;> simp [ht]
  have hdsel : (if tg.type = TagT.SCRIPT then strBytes "</SCRIPT"
      else strBytes "</STYLE") = d := by
    rcases hd with ⟨ht, hdq⟩ | ⟨ht, hdq⟩ <;> simp [ht, hdq, TagT.SCRIPT, TagT.STYLE]
  have hd0 : readB d 0 = 60 := by
    rcases hd with ⟨_, hdq⟩ | ⟨_, hdq⟩ <;> subst hdq <;> decide
  have hupper : ∀ c ∈ d, towupperB c = c ∧ c ≠ 0 := by
    rcases hd with ⟨_, hdq⟩ | ⟨_, hdq⟩ <;> subst hdq <;> decide
  have hdne : d ≠ [] := by
    rcases hd with ⟨_, hdq⟩ | ⟨_, hdq⟩ <;> subst hdq <;> decide
  obtain ⟨hm1, hm2, hm3⟩ := hmain hd0 hupper hdne
  refine ⟨?_, ?_, ?_⟩
  · intro rest
    simp only [scan_raw_text, htop, dif_neg, hguard, if_neg hguard, hdsel]
    rw [hm1 rest _ (by simp only [List.length_append]; omega)]
    cases he : content.isEmpty <;> simp [he]
  · intro c2 rest hc2
    simp only [scan_raw_text, htop, if_neg hguard, hdsel]
    rw [hm2 c2 rest _ (by simp only [List.length_append, List.length_cons]; omega) hc2]
    cases he : content.isEmpty <;> simp [he]
  · simp only [scan_raw_text, htop, if_neg hguard, hdsel]
    rw [hm3 _ (by omega)]
    cases he : content.isEmpty <;> simp [he]

/-- Witness for C5 (amended): `<style>` raw text `ab` stopping before `{%`:
    the token covers the two content bytes, `RAW_TEXT` is emitted. -/
theorem scan_raw_text_characterization_witness :
    ((Scanner.mk [⟨TagT.STYLE, []⟩] [] 0).tags.getLast? = some ⟨TagT.STYLE, []⟩) ∧
    ((⟨TagT.STYLE, []⟩ : Tag).type = TagT.STYLE ∧
      strBytes "</STYLE" = strBytes "</STYLE") ∧
    (∀ c ∈ [97, 98], c ≠ 0 ∧ c ≠ 60 ∧ c ≠ 123) ∧
    ((37 : Byte) = 123 ∨ (37 : Byte) = 37 ∨ (37 : Byte) = 35) ∧
    scan_raw_text ⟨[⟨TagT.STYLE, []⟩], [], 0⟩ ([97, 98] ++ (123 :: 37 :: [])) 0 =
      ⟨true, ⟨[⟨TagT.STYLE, []⟩], [], 0⟩, 3, some 2, some Token.RAW_TEXT⟩ := by
  refine ⟨rfl, ⟨rfl, rfl⟩, by decide, Or.inr (Or.inl rfl), ?_⟩
  have := (scan_raw_text_characterization ⟨[⟨TagT.STYLE, []⟩], [], 0⟩
    ⟨TagT.STYLE, []⟩ rfl (strBytes "</STYLE")
    (Or.inr ⟨rfl, rfl⟩) [97, 98] (by decide)).2.1 37 [] (Or.inr (Or.inl rfl))
  simpa using this

/-! ### Helper lemmas for the verbatim-content scanner (C3) -/

/-- Reading through a `drop`. -/
theorem readB_drop (l : List Byte) (m k : Nat) :
    readB (l.drop m) k = readB l (m + k) := by
  simp [readB, List.getD, List.get?_drop]

/-- `takeWhile` of an append whose left part satisfies the predicate and whose
    right part starts with a byte that does not. -/
theorem takeWhile_append_stop {p : Byte → Bool} (l1 : List Byte)
    (h1 : ∀ c ∈ l1, p c = true) (c : Byte) (hc : p c = false) (l2 : List Byte) :
    (l1 ++ c :: l2).takeWhile p = l1 := by
  induction l1 with
  | nil => simp [List.takeWhile_cons, hc]
  | cons a l ih =>
    have ha := h1 a (by simp)
    simp only [List.cons_append, List.takeWhile_cons, ha]
    rw [ih (fun b hb => h1 b (by simp [hb]))]
    simp

/-- `matchRun` fully matches when the input carries the keyword at the
    cursor. -/
theorem matchRun_exact (kw : List Byte) :
    ∀ (input : List Byte) (p : Nat),
    (∀ k, k < kw.length → readB input (p + k) = kw.getD k 0) →
    matchRun kw input p = (p + kw.length, true) := by
  induction kw with
  | nil => intro input p _; simp [matchRun]
  | cons c cs ih =>
    intro input p h
    have h0 : readB input p = c := by
      have := h 0 (by simp)
      simpa using this
    simp only [matchRun, h0, if_pos rfl]
    have := ih input (p + 1) (fun k hk => by
      have := h (k + 1) (by simp only [List.length_cons]; omega)
      rw [show p + 1 + k = p + (k + 1) by omega]
      simpa [List.getD] using this)
    rw [this, show p + 1 + cs.length = p + (c :: cs).length from by
      simp only [List.length_cons]; omega]
    simp

/-- Reading the first `n` bytes of a buffer via `getD` equals `take n` when
    `n` is within the buffer. -/
theorem readRange_eq_take (l : List Byte) (n : Nat) (h : n ≤ l.length) :
    (List.range n).map (fun i => readB l i) = l.take n := by
  induction n with
  | zero => simp
  | succ m ih =>
    rw [List.range_succ, List.map_append, ih (by omega), List.take_succ]
    simp only [List.map_cons, List.map_nil]
    have hm : m < l.length := by omega
    simp [readB, List.getD, List.getElem?_eq_getElem hm]

/-- Splitting a `drop` of a sum. -/
theorem drop_add (l : List Byte) (m n : Nat) :
    l.drop (m + n) = (l.drop m).drop n := by
  rw [List.drop_drop]

/-- Walking the verbatim-content loop across bytes that are neither NUL nor
    `{` just advances the cursor. -/
theorem vcLoop_walk (pre : List Byte) (hpre : ∀ c ∈ pre, c ≠ 0 ∧ c ≠ 123) :
    ∀ (sfx preDone tail : List Byte) (fuel : Nat),
    vcLoop (pre.length + fuel) sfx (preDone ++ (pre ++ tail)) preDone.length =
      vcLoop fuel sfx (preDone ++ (pre ++ tail)) (preDone.length + pre.length) := by
  induction pre with
  | nil => intro sfx preDone tail fuel; simp
  | cons c cs ih =>
    intro sfx preDone tail fuel
    obtain ⟨hc0, hc123⟩ := hpre c (by simp)
    have hread : readB (preDone ++ ((c :: cs) ++ tail)) preDone.length = c := by
      simpa using readB_append preDone ((c :: cs) ++ tail) 0
    have hlen : (c :: cs).length + fuel = (cs.length + fuel) + 1 := by
      simp only [List.length_cons]; omega
    rw [hlen]
    have hstep :
        vcLoop ((cs.length + fuel) + 1) sfx (preDone ++ ((c :: cs) ++ tail))
            preDone.length =
        vcLoop (cs.length + fuel) sfx (preDone ++ ((c :: cs) ++ tail))
            (preDone.length + 1) := by
      simp only [vcLoop, hread, if_neg hc0, if_neg hc123]
    rw [hstep]
    have hsplit : preDone ++ ((c :: cs) ++ tail) = (preDone ++ [c]) ++ (cs ++ tail) := by
      simp
    have hIH := ih (fun b hb => hpre b (by simp [hb])) sfx (preDone ++ [c]) tail fuel
    simp only [List.length_append, List.length_cons, List.length_nil] at hIH
    rw [hsplit, hIH, show preDone.length + 1 + cs.length =
      preDone.length + (cs.length + 1) by omega]
    simp

/-- The verbatim-content candidate succeeds in a single loop iteration when
    the closer `{%`, horizontal whitespace, `endverbatim`, the suffix,
    horizontal whitespace, `%}` sits exactly at the cursor. -/
theorem vcLoop_candidate (sfx input : List Byte) (p fuel : Nat)
    (hws1 hws2 rest : List Byte)
    (hh1 : ∀ c ∈ hws1, is_horizontal_space c = true)
    (hh2 : ∀ c ∈ hws2, is_horizontal_space c = true)
    (hdecomp : input.drop p =
      123 :: 37 :: (hws1 ++ (strBytes "endverbatim" ++ (sfx ++ (hws2 ++
        (37 :: 125 :: rest)))))) :
    vcLoop (fuel + 1) sfx input p =
      some (some (p + 2 + hws1.length + 11 + sfx.length + hws2.length + 2)) := by
  have hrd : ∀ k, readB input (p + k) = readB (input.drop p) k := by
    intro k
    rw [readB_drop]
  have h0 : readB input p = 123 := by
    have := hrd 0
    rw [Nat.add_zero] at this
    rw [this, hdecomp]
    rfl
  have h1 : readB input (p + 1) = 37 := by
    rw [hrd 1, hdecomp]
    rfl
  have hdrop2 : input.drop (p + 2) =
      hws1 ++ (strBytes "endverbatim" ++ (sfx ++ (hws2 ++ (37 :: 125 :: rest)))) := by
    rw [drop_add input p 2, hdecomp]
    rfl
  have hrun1 : hspaceRun (input.drop (p + 2)) = hws1.length := by
    rw [hdrop2]
    unfold hspaceRun
    rw [show hws1 ++ (strBytes "endverbatim" ++ (sfx ++ (hws2 ++ (37 :: 125 :: rest))))
      = hws1 ++ 101 :: ((strBytes "endverbatim").tail ++ (sfx ++ (hws2 ++
        (37 :: 125 :: rest)))) by rfl]
    rw [takeWhile_append_stop hws1 hh1 101 (by decide)]
  have hdropw1 : input.drop (p + 2 + hws1.length) =
      strBytes "endverbatim" ++ (sfx ++ (hws2 ++ (37 :: 125 :: rest))) := by
    rw [drop_add input (p + 2) hws1.length, hdrop2, List.drop_left]
  have hkw : matchRun (strBytes "endverbatim") input (p + 2 + hws1.length) =
      (p + 2 + hws1.length + 11, true) := by
    have := matchRun_exact (strBytes "endverbatim") input (p + 2 + hws1.length)
      (fun k hk => by
        have e : readB input (p + 2 + hws1.length + k) =
            readB (input.drop (p + 2 + hws1.length)) k := by
          rw [readB_drop]
        rw [e, hdropw1, readB_append_left _ _ k hk]
        rfl)
    simpa using this
  have hdropkw : input.drop (p + 2 + hws1.length + 11) =
      sfx ++ (hws2 ++ (37 :: 125 :: rest)) := by
    rw [drop_add input (p + 2 + hws1.length) 11, hdropw1,
      show (11 : Nat) = (strBytes "endverbatim").length from rfl, List.drop_left]
  have hsfx : matchRun sfx input (p + 2 + hws1.length + 11) =
      (p + 2 + hws1.length + 11 + sfx.length, true) := by
    exact matchRun_exact sfx input _ (fun k hk => by
      have e : readB input (p + 2 + hws1.length + 11 + k) =
          readB (input.drop (p + 2 + hws1.length + 11)) k := by
        rw [readB_drop]
      rw [e, hdropkw, readB_append_left _ _ k hk]
      rfl)
  have hdropsfx : input.drop (p + 2 + hws1.length + 11 + sfx.length) =
      hws2 ++ (37 :: 125 :: rest) := by
    rw [drop_add input (p + 2 + hws1.length + 11) sfx.length, hdropkw, List.drop_left]
  have hrun2 : hspaceRun (input.drop (p + 2 + hws1.length + 11 + sfx.length)) =
      hws2.length := by
    rw [hdropsfx]
    unfold hspaceRun
    rw [takeWhile_append_stop hws2 hh2 37 (by decide)]
  have hdropw2 : input.drop (p + 2 + hws1.length + 11 + sfx.length + hws2.length) =
      37 :: 125 :: rest := by
    rw [drop_add input (p + 2 + hws1.length + 11 + sfx.length) hws2.length,
      hdropsfx, List.drop_left]
  have hp6 : readB input (p + 2 + hws1.length + 11 + sfx.length + hws2.length) = 37 := by
    exact (readB_drop input (p + 2 + hws1.length + 11 + sfx.length + hws2.length)
      0).symm.trans (by rw [hdropw2]; rfl)
  have hp7 : readB input (p + 2 + hws1.length + 11 + sfx.length + hws2.length + 1)
      = 125 := by
    exact (readB_drop input (p + 2 + hws1.length + 11 + sfx.length + hws2.length)
      1).symm.trans (by rw [hdropw2]; rfl)
  simp only [vcLoop, h0, h1, hrun1, hkw, hsfx, hrun2, hp6, hp7]
  norm_num

/-- C3 counterexample: with an empty stored suffix, the input consisting of a
    single `{` directly followed by `{% endverbatim %}` (no whitespace)
    contains the closing pattern starting at index 1 and ending before
    end-of-input, yet `scan_verbatim_content` fails: the failed candidate at
    index 0 consumed the `{` at index 1, and the loop then advances one more
    byte, so the real closer is never examined. -/
theorem verbatim_content_skips_overlapped_closer :
    (scan_verbatim_content freshScanner
      (123 :: (123 :: 37 :: (strBytes "endverbatim" ++ (37 :: 125 :: [])))) 0).ok
        = false ∧
    123 :: (123 :: 37 :: (strBytes "endverbatim" ++ (37 :: 125 :: []))) =
      [123] ++ (123 :: 37 :: (([] : List Byte) ++ (strBytes "endverbatim" ++
        (storedSuffix freshScanner ++ (([] : List Byte) ++ (37 :: 125 :: [])))))) := by
  exact ⟨by decide, by rfl⟩

/-- C3 amended: for every scanner state and every input consisting of a
    prefix free of NUL and `{` bytes followed by `{%`, horizontal whitespace,
    `endverbatim`, the exact stored suffix bytes, horizontal whitespace and
    `%}`, `scan_verbatim_content` succeeds, consumes through the end of that
    closing tag, clears the suffix, and emits `VERBATIM_BLOCK_CONTENT`.  (The
    `{`-free prefix is required: a failed candidate match can consume more
    than one byte before the retry, skipping a closer that overlaps it — see
    the counterexample.) -/
theorem scan_verbatim_content_success (s : Scanner)
    (hwf : s.verbatimLength ≤ s.verbatimBuf.length)
    (pre hws1 hws2 rest : List Byte)
    (hpre : ∀ c ∈ pre, c ≠ 0 ∧ c ≠ 123)
    (hh1 : ∀ c ∈ hws1, is_horizontal_space c = true)
    (hh2 : ∀ c ∈ hws2, is_horizontal_space c = true) :
    scan_verbatim_content s
      (pre ++ (123 :: 37 :: (hws1 ++ (strBytes "endverbatim" ++ (storedSuffix s ++
        (hws2 ++ (37 :: 125 :: rest))))))) 0 =
      ⟨true, ⟨s.tags, s.verbatimBuf, 0⟩,
        pre.length + 2 + hws1.length + 11 + (storedSuffix s).length + hws2.length + 2,
        some (pre.length + 2 + hws1.length + 11 + (storedSuffix s).length +
          hws2.length + 2),
        some Token.VERBATIM_BLOCK_CONTENT⟩ := by
  have hsfx0 : (List.range s.verbatimLength).map (fun i => readB s.verbatimBuf i) =
      storedSuffix s := readRange_eq_take _ _ hwf
  have hprelen : pre.length + 1 ≤
      (pre ++ (123 :: 37 :: (hws1 ++ (strBytes "endverbatim" ++ (storedSuffix s ++
        (hws2 ++ (37 :: 125 :: rest))))))).length := by
    simp only [List.length_append, List.length_cons]
    omega
  have hwalk := vcLoop_walk pre hpre (storedSuffix s) []
    (123 :: 37 :: (hws1 ++ (strBytes "endverbatim" ++ (storedSuffix s ++
      (hws2 ++ (37 :: 125 :: rest))))))
    (2 * (pre ++ (123 :: 37 :: (hws1 ++ (strBytes "endverbatim" ++
      (storedSuffix s ++ (hws2 ++ (37 :: 125 :: rest))))))).length + 8 - pre.length)
  simp only [List.nil_append, List.length_nil, Nat.zero_add] at hwalk
  have hcand := vcLoop_candidate (storedSuffix s)
    (pre ++ (123 :: 37 :: (hws1 ++ (strBytes "endverbatim" ++ (storedSuffix s ++
      (hws2 ++ (37 :: 125 :: rest)))))))
    pre.length
    (2 * (pre ++ (123 :: 37 :: (hws1 ++ (strBytes "endverbatim" ++
      (storedSuffix s ++ (hws2 ++ (37 :: 125 :: rest))))))).length + 8 -
      pre.length - 1)
    hws1 hws2 rest hh1 hh2 (by rw [List.drop_left])
  simp only [scan_verbatim_content, hsfx0]
  rw [show 2 * (pre ++ (123 :: 37 :: (hws1 ++ (strBytes "endverbatim" ++
      (storedSuffix s ++ (hws2 ++ (37 :: 125 :: rest))))))).length + 8 =
    pre.length + (2 * (pre ++ (123 :: 37 :: (hws1 ++ (strBytes "endverbatim" ++
      (storedSuffix s ++ (hws2 ++ (37 :: 125 :: rest))))))).length + 8 - pre.length)
    from by omega]
  rw [hwalk]
  rw [show 2 * (pre ++ (123 :: 37 :: (hws1 ++ (strBytes "endverbatim" ++
      (storedSuffix s ++ (hws2 ++ (37 :: 125 :: rest))))))).length + 8 - pre.length =
    (2 * (pre ++ (123 :: 37 :: (hws1 ++ (strBytes "endverbatim" ++
      (storedSuffix s ++ (hws2 ++ (37 :: 125 :: rest))))))).length + 8 -
      pre.length - 1) + 1 from by omega]
  rw [hcand]

/-- Witness for C3 (amended): suffix `fo`, input `x{% endverbatimfo %}!`,
    consumed through position 20 with the suffix cleared. -/
theorem scan_verbatim_content_success_witness :
    ((Scanner.mk [] [102, 111] 2).verbatimLength ≤
      (Scanner.mk [] [102, 111] 2).verbatimBuf.length) ∧
    (∀ c ∈ [120], c ≠ 0 ∧ c ≠ 123) ∧
    (∀ c ∈ [32], is_horizontal_space c = true) ∧
    scan_verbatim_content ⟨[], [102, 111], 2⟩
      ([120] ++ (123 :: 37 :: ([32] ++ (strBytes "endverbatim" ++
        (storedSuffix ⟨[], [102, 111], 2⟩ ++ ([32] ++ (37 :: 125 :: [33])))))))
      0 =
      ⟨true, ⟨[], [102, 111], 0⟩, 20, some 20, some Token.VERBATIM_BLOCK_CONTENT⟩ := by
  refine ⟨by decide, by decide, by decide, ?_⟩
  have := scan_verbatim_content_success ⟨[], [102, 111], 2⟩ (by decide)
    [120] [32] [32] [33] (by decide) (by decide) (by decide)
  simpa [storedSuffix] using this

/-! ### Per-sub-scanner state lemmas (for C6 and C7) -/

/-- The verbatim-start scanner never touches the element stack. -/
theorem scan_verbatim_start_tags (s : Scanner) (input : List Byte) (pos : Nat) :
    (scan_verbatim_start s input pos).scanner.tags = s.tags := by
  unfold scan_verbatim_start
  cases hv : vsLoop (2 * input.length + 8) input pos s.verbatimBuf 0 0 with
  | none => rfl
  | some vso => cases vso <;> rfl

/-- The verbatim-start scanner updates the recorded suffix length only on
    success. -/
theorem scan_verbatim_start_len (s : Scanner) (input : List Byte) (pos : Nat)
    (h : (scan_verbatim_start s input pos).ok = false) :
    (scan_verbatim_start s input pos).scanner.verbatimLength = s.verbatimLength := by
  unfold scan_verbatim_start at h ⊢
  cases hv : vsLoop (2 * input.length + 8) input pos s.verbatimBuf 0 0 with
  | none => rfl
  | some vso =>
    cases vso with
    | fail _ _ => rfl
    | success _ _ _ => rw [hv] at h; exact absurd h (by simp)

/-- The verbatim-content scanner never touches the stack or the buffer bytes,
    and on failure leaves the whole scanner unchanged. -/
theorem scan_verbatim_content_state (s : Scanner) (input : List Byte) (pos : Nat) :
    (scan_verbatim_content s input pos).scanner.tags = s.tags ∧
    (scan_verbatim_content s input pos).scanner.verbatimBuf = s.verbatimBuf ∧
    ((scan_verbatim_content s input pos).ok = false →
      (scan_verbatim_content s input pos).scanner = s) := by
  simp only [scan_verbatim_content]
  repeat' split
  all_goals
    first
      | exact ⟨rfl, rfl, fun _ => rfl⟩
      | exact ⟨rfl, rfl, fun h => absurd h (by simp)⟩

/-- The raw-text scanner never mutates the scanner state. -/
theorem scan_raw_text_state (s : Scanner) (input : List Byte) (pos : Nat) :
    (scan_raw_text s input pos).scanner = s := by
  simp only [scan_raw_text]
  repeat' split
  all_goals rfl

/-- The RCDATA scanner never mutates the scanner state. -/
theorem scan_rcdata_text_state (s : Scanner) (input : List Byte) (pos : Nat) :
    (scan_rcdata_text s input pos).scanner = s := by
  simp only [scan_rcdata_text]
  repeat' split
  all_goals rfl

/-- The plaintext scanner either fails with the scanner unchanged or pops the
    top. -/
theorem scan_plaintext_text_state (s : Scanner) (input : List Byte) (pos : Nat) :
    ((scan_plaintext_text s input pos).ok = false →
      (scan_plaintext_text s input pos).scanner = s) ∧
    ((scan_plaintext_text s input pos).scanner = s ∨
      (scan_plaintext_text s input pos).scanner = pop_tag s) := by
  simp only [scan_plaintext_text]
  repeat' split
  all_goals
    first
      | exact ⟨fun _ => rfl, Or.inl rfl⟩
      | exact ⟨fun h => absurd h (by simp), Or.inr rfl⟩

/-- The implicit-end scanner either fails with the scanner unchanged or pops
    the top. -/
theorem scan_implicit_end_tag_state (s : Scanner) (input : List Byte) (pos : Nat) :
    ((scan_implicit_end_tag s input pos).ok = false →
      (scan_implicit_end_tag s input pos).scanner = s) ∧
    ((scan_implicit_end_tag s input pos).scanner = s ∨
      (scan_implicit_end_tag s input pos).scanner = pop_tag s) := by
  simp only [scan_implicit_end_tag]
  repeat' split
  all_goals
    first
      | exact ⟨fun _ => rfl, Or.inl rfl⟩
      | exact ⟨fun h => absurd h (by simp), Or.inr rfl⟩

/-- The start-tag scanner either fails with the scanner unchanged, emits a
    void tag without pushing, or pushes one tag. -/
theorem scan_start_tag_name_state (s : Scanner) (input : List Byte) (pos : Nat) :
    ((scan_start_tag_name s input pos).ok = false →
      (scan_start_tag_name s input pos).scanner = s) ∧
    ((scan_start_tag_name s input pos).scanner.verbatimBuf = s.verbatimBuf ∧
      (scan_start_tag_name s input pos).scanner.verbatimLength = s.verbatimLength) ∧
    ((scan_start_tag_name s input pos).scanner.tags = s.tags ∨
      ∃ t, (scan_start_tag_name s input pos).scanner.tags = s.tags ++ [t]) := by
  simp only [scan_start_tag_name]
  repeat' split
  all_goals
    first
      | exact ⟨fun _ => rfl, ⟨rfl, rfl⟩, Or.inl rfl⟩
      | exact ⟨fun h => absurd h (by simp), ⟨rfl, rfl⟩, Or.inl rfl⟩
      | exact ⟨fun h => absurd h (by simp), ⟨rfl, rfl⟩, Or.inr ⟨_, rfl⟩⟩

/-- The end-tag scanner either fails with the scanner unchanged, pops the
    top, or leaves the stack alone. -/
theorem scan_end_tag_name_state (s : Scanner) (input : List Byte) (pos : Nat) :
    ((scan_end_tag_name s input pos).ok = false →
      (scan_end_tag_name s input pos).scanner = s) ∧
    ((scan_end_tag_name s input pos).scanner = s ∨
      (scan_end_tag_name s input pos).scanner = pop_tag s) := by
  simp only [scan_end_tag_name]
  repeat' split
  all_goals
    first
      | exact ⟨fun _ => rfl, Or.inl rfl⟩
      | exact ⟨fun h => absurd h (by simp), Or.inl rfl⟩
      | exact ⟨fun h => absurd h (by simp), Or.inr rfl⟩

/-- The self-closing delimiter scanner either fails with the scanner
    unchanged, pops the top (foreign content), or leaves the state alone. -/
theorem scan_self_closing_tag_delimiter_state (s : Scanner) (input : List Byte)
    (pos : Nat) :
    ((scan_self_closing_tag_delimiter s input pos).ok = false →
      (scan_self_closing_tag_delimiter s input pos).scanner = s) ∧
    ((scan_self_closing_tag_delimiter s input pos).scanner = s ∨
      (scan_self_closing_tag_delimiter s input pos).scanner = pop_tag s) := by
  simp only [scan_self_closing_tag_delimiter]
  repeat' split
  all_goals
    first
      | exact ⟨fun _ => rfl, Or.inl rfl⟩
      | exact ⟨fun h => absurd h (by simp), Or.inl rfl⟩
      | exact ⟨fun h => absurd h (by simp), Or.inr rfl⟩

/-- Both branches of a conditional result carry the same scanner. -/
theorem ite_scanner {c : Prop} [Decidable c] {a b : SubResult} {s : Scanner}
    (ha : a.scanner = s) (hb : b.scanner = s) : (ite c a b).scanner = s := by
  by_cases h : c
  · rw [if_pos h]; exact ha
  · rw [if_neg h]; exact hb

/-- The dispatcher either answers with the scanner untouched (whitespace
    skipping, pure sub-scanners, fallthrough failure) or hands over to exactly
    one state-owning sub-scanner. -/
theorem scan_dispatch (s : Scanner) (input : List Byte) (pos : Nat) (valid : Valid) :
    (scan s input pos valid).scanner = s ∨
    (valid Token.VERBATIM_START = true ∧
      scan s input pos valid = scan_verbatim_start s input pos) ∨
    scan s input pos valid = scan_verbatim_content s input pos ∨
    scan s input pos valid = scan_raw_text s input pos ∨
    scan s input pos valid = scan_rcdata_text s input pos ∨
    scan s input pos valid = scan_plaintext_text s input pos ∨
    (∃ p, scan s input pos valid = scan_implicit_end_tag s input p) ∨
    (∃ p, scan s input pos valid = scan_self_closing_tag_delimiter s input p) ∨
    (∃ p, scan s input pos valid = scan_end_tag_name s input p) ∨
    (∃ p, scan s input pos valid = scan_start_tag_name s input p) := by
  by_cases h1 : valid Token.DJANGO_COMMENT_CONTENT = true
  · exact Or.inl (by rw [scan, if_pos h1])
  by_cases h2 : valid Token.VERBATIM_START = true
  · exact Or.inr (Or.inl ⟨h2, by rw [scan, if_neg h1, if_pos h2]⟩)
  by_cases h3 : valid Token.VERBATIM_BLOCK_CONTENT = true
  · exact Or.inr (Or.inr (Or.inl (by rw [scan, if_neg h1, if_neg h2, if_pos h3])))
  by_cases h4 : (valid Token.VALIDATE_GENERIC_BLOCK ||
      valid Token.VALIDATE_GENERIC_SIMPLE) = true
  · exact Or.inl (by rw [scan, if_neg h1, if_neg h2, if_neg h3, if_pos h4])
  by_cases h5 : valid Token.FILTER_COLON = true ∧ readB input pos = 58
  · refine Or.inl ?_
    rw [scan, if_neg h1, if_neg h2, if_neg h3, if_neg h4, if_pos h5]
    exact ite_scanner rfl rfl
  by_cases h6 : (valid Token.RAW_TEXT && !valid_end_tag valid &&
      !valid_start_tag valid) = true
  · exact Or.inr (Or.inr (Or.inr (Or.inl (by
      rw [scan, if_neg h1, if_neg h2, if_neg h3, if_neg h4, if_neg h5, if_pos h6]))))
  by_cases h7 : (valid Token.RCDATA_TEXT && !valid_end_tag valid &&
      !valid_start_tag valid) = true
  · exact Or.inr (Or.inr (Or.inr (Or.inr (Or.inl (by
      rw [scan, if_neg h1, if_neg h2, if_neg h3, if_neg h4, if_neg h5, if_neg h6,
        if_pos h7])))))
  by_cases h8 : valid Token.PLAINTEXT_TEXT = true
  · exact Or.inr (Or.inr (Or.inr (Or.inr (Or.inr (Or.inl (by
      rw [scan, if_neg h1, if_neg h2, if_neg h3, if_neg h4, if_neg h5, if_neg h6,
        if_neg h7, if_pos h8]))))))
  by_cases h9 : readB input (wsSkip input pos) = 60
  · by_cases h10 : readB input (wsSkip input pos + 1) = 33
    · exact Or.inl (by
        rw [scan, if_neg h1, if_neg h2, if_neg h3, if_neg h4, if_neg h5, if_neg h6,
          if_neg h7, if_neg h8, if_pos h9, if_pos h10])
    by_cases h11 : valid Token.IMPLICIT_END_TAG = true
    · exact Or.inr (Or.inr (Or.inr (Or.inr (Or.inr (Or.inr (Or.inl
        ⟨wsSkip input pos + 1, by
          rw [scan, if_neg h1, if_neg h2, if_neg h3, if_neg h4, if_neg h5,
            if_neg h6, if_neg h7, if_neg h8, if_pos h9, if_neg h10,
            if_pos h11]⟩))))))
    exact Or.inl (by
      rw [scan, if_neg h1, if_neg h2, if_neg h3, if_neg h4, if_neg h5, if_neg h6,
        if_neg h7, if_neg h8, if_pos h9, if_neg h10, if_neg h11])
  by_cases h12 : readB input (wsSkip input pos) = 0
  · by_cases h13 : valid Token.IMPLICIT_END_TAG = true
    · exact Or.inr (Or.inr (Or.inr (Or.inr (Or.inr (Or.inr (Or.inl
        ⟨wsSkip input pos, by
          rw [scan, if_neg h1, if_neg h2, if_neg h3, if_neg h4, if_neg h5,
            if_neg h6, if_neg h7, if_neg h8, if_neg h9, if_pos h12,
            if_pos h13]⟩))))))
    exact Or.inl (by
      rw [scan, if_neg h1, if_neg h2, if_neg h3, if_neg h4, if_neg h5, if_neg h6,
        if_neg h7, if_neg h8, if_neg h9, if_pos h12, if_neg h13])
  by_cases h14 : readB input (wsSkip input pos) = 47
  · by_cases h15 : valid Token.SELF_CLOSING_TAG_DELIMITER = true
    · exact Or.inr (Or.inr (Or.inr (Or.inr (Or.inr (Or.inr (Or.inr (Or.inl
        ⟨wsSkip input pos, by
          rw [scan, if_neg h1, if_neg h2, if_neg h3, if_neg h4, if_neg h5,
            if_neg h6, if_neg h7, if_neg h8, if_neg h9, if_neg h12, if_pos h14,
            if_pos h15]⟩)))))))
    exact Or.inl (by
      rw [scan, if_neg h1, if_neg h2, if_neg h3, if_neg h4, if_neg h5, if_neg h6,
        if_neg h7, if_neg h8, if_neg h9, if_neg h12, if_pos h14, if_neg h15])
  by_cases h16 : ((valid_start_tag valid || valid_end_tag valid) &&
      !(valid Token.RAW_TEXT)) = true
  · by_cases h17 : valid_end_tag valid = true
    · exact Or.inr (Or.inr (Or.inr (Or.inr (Or.inr (Or.inr (Or.inr (Or.inr
        (Or.inl ⟨wsSkip input pos, by
          rw [scan, if_neg h1, if_neg h2, if_neg h3, if_neg h4, if_neg h5,
            if_neg h6, if_neg h7, if_neg h8, if_neg h9, if_neg h12, if_neg h14,
            if_pos h16, if_pos h17]⟩))))))))
    exact Or.inr (Or.inr (Or.inr (Or.inr (Or.inr (Or.inr (Or.inr (Or.inr
      (Or.inr ⟨wsSkip input pos, by
        rw [scan, if_neg h1, if_neg h2, if_neg h3, if_neg h4, if_neg h5,
          if_neg h6, if_neg h7, if_neg h8, if_neg h9, if_neg h12, if_neg h14,
          if_pos h16, if_neg h17]⟩))))))))
  exact Or.inl (by
    rw [scan, if_neg h1, if_neg h2, if_neg h3, if_neg h4, if_neg h5, if_neg h6,
      if_neg h7, if_neg h8, if_neg h9, if_neg h12, if_neg h14, if_neg h16])

/-- C7 counterexample: with `VERBATIM_START` as the only valid symbol, the
    stored suffix `foo` and the input `x\n`, `scan` returns false but the
    failing verbatim-start attempt has already overwritten the first stored
    suffix byte: the stored bytes change from `foo` to `xoo` even though no
    token was emitted. -/
theorem scan_failure_mutates_suffix_buffer :
    (scan ⟨[], [102, 111, 111], 3⟩ [120, 10] 0
      (fun t => t == Token.VERBATIM_START)).ok = false ∧
    storedSuffix (scan ⟨[], [102, 111, 111], 3⟩ [120, 10] 0
      (fun t => t == Token.VERBATIM_START)).scanner = [120, 111, 111] ∧
    storedSuffix ⟨[], [102, 111, 111], 3⟩ = [102, 111, 111] ∧
    ([120, 111, 111] : List Byte) ≠ [102, 111, 111] := by
  decide

/-- C7 amended: if `scan` returns false, the element stack and the recorded
    verbatim suffix length are exactly as before the call, and — unless the
    call was a `VERBATIM_START` attempt — the verbatim buffer bytes are also
    unchanged.  (A failing `scan_verbatim_start` may have overwritten stored
    suffix bytes: see the counterexample.) -/
theorem scan_failure_atomicity (s : Scanner) (input : List Byte) (pos : Nat)
    (valid : Valid) (h : (scan s input pos valid).ok = false) :
    (scan s input pos valid).scanner.tags = s.tags ∧
    (scan s input pos valid).scanner.verbatimLength = s.verbatimLength ∧
    (valid Token.VERBATIM_START = false →
      (scan s input pos valid).scanner.verbatimBuf = s.verbatimBuf) := by
  rcases scan_dispatch s input pos valid with hc | ⟨hv, hc⟩ | hc | hc | hc | hc |
    ⟨p, hc⟩ | ⟨p, hc⟩ | ⟨p, hc⟩ | ⟨p, hc⟩
  · rw [hc]
    exact ⟨rfl, rfl, fun _ => rfl⟩
  · rw [hc] at h ⊢
    exact ⟨scan_verbatim_start_tags s input pos, scan_verbatim_start_len s input pos h,
      fun hvf => absurd hv (by simp [hvf])⟩
  · rw [hc] at h ⊢
    rw [(scan_verbatim_content_state s input pos).2.2 h]
    exact ⟨rfl, rfl, fun _ => rfl⟩
  · rw [hc, scan_raw_text_state s input pos]
    exact ⟨rfl, rfl, fun _ => rfl⟩
  · rw [hc, scan_rcdata_text_state s input pos]
    exact ⟨rfl, rfl, fun _ => rfl⟩
  · rw [hc] at h ⊢
    rw [(scan_plaintext_text_state s input pos).1 h]
    exact ⟨rfl, rfl, fun _ => rfl⟩
  · rw [hc] at h ⊢
    rw [(scan_implicit_end_tag_state s input p).1 h]
    exact ⟨rfl, rfl, fun _ => rfl⟩
  · rw [hc] at h ⊢
    rw [(scan_self_closing_tag_delimiter_state s input p).1 h]
    exact ⟨rfl, rfl, fun _ => rfl⟩
  · rw [hc] at h ⊢
    rw [(scan_end_tag_name_state s input p).1 h]
    exact ⟨rfl, rfl, fun _ => rfl⟩
  · rw [hc] at h ⊢
    rw [(scan_start_tag_name_state s input p).1 h]
    exact ⟨rfl, rfl, fun _ => rfl⟩

/-- Witness for C7 (amended): with nothing valid and empty input, `scan`
    fails and the scanner is untouched. -/
theorem scan_failure_atomicity_witness :
    ((scan ⟨[⟨TagT.P, []⟩], [104], 1⟩ [] 0 (fun _ => false)).ok = false) ∧
    ((scan ⟨[⟨TagT.P, []⟩], [104], 1⟩ [] 0 (fun _ => false)).scanner.tags =
        [Tag.mk TagT.P []] ∧
      (scan ⟨[⟨TagT.P, []⟩], [104], 1⟩ [] 0 (fun _ => false)).scanner.verbatimLength
        = 1 ∧
      ((fun (_ : Token) => false) Token.VERBATIM_START = false →
        (scan ⟨[⟨TagT.P, []⟩], [104], 1⟩ [] 0
          (fun _ => false)).scanner.verbatimBuf = [104])) :=
  ⟨by decide,
    scan_failure_atomicity ⟨[⟨TagT.P, []⟩], [104], 1⟩ [] 0 (fun _ => false)
      (by decide)⟩

/-- C6: Stack-depth invariant.  For every scanner state, input, cursor and
    validity vector, if `scan` returns true then the element-stack size after
    the call differs from the size before by exactly -1, 0 or +1. -/
theorem scan_stack_depth (s : Scanner) (input : List Byte) (pos : Nat)
    (valid : Valid) (h : (scan s input pos valid).ok = true) :
    (scan s input pos valid).scanner.tags.length + 1 = s.tags.length ∨
    (scan s input pos valid).scanner.tags.length = s.tags.length ∨
    (scan s input pos valid).scanner.tags.length = s.tags.length + 1 := by
  have hpop : ∀ s' : Scanner, s' = pop_tag s →
      s'.tags.length + 1 = s.tags.length ∨ s'.tags.length = s.tags.length ∨
      s'.tags.length = s.tags.length + 1 := by
    intro s' hs'
    have he : (pop_tag s).tags = s.tags.dropLast := rfl
    rw [hs', he, List.length_dropLast]
    omega
  rcases scan_dispatch s input pos valid with hc | ⟨_, hc⟩ | hc | hc | hc | hc |
    ⟨p, hc⟩ | ⟨p, hc⟩ | ⟨p, hc⟩ | ⟨p, hc⟩
  · rw [hc]; exact Or.inr (Or.inl rfl)
  · rw [hc, scan_verbatim_start_tags s input pos]; exact Or.inr (Or.inl rfl)
  · rw [hc, (scan_verbatim_content_state s input pos).1]; exact Or.inr (Or.inl rfl)
  · rw [hc, scan_raw_text_state s input pos]; exact Or.inr (Or.inl rfl)
  · rw [hc, scan_rcdata_text_state s input pos]; exact Or.inr (Or.inl rfl)
  · rw [hc]
    rcases (scan_plaintext_text_state s input pos).2 with he | he
    · rw [he]; exact Or.inr (Or.inl rfl)
    · exact hpop _ he
  · rw [hc]
    rcases (scan_implicit_end_tag_state s input p).2 with he | he
    · rw [he]; exact Or.inr (Or.inl rfl)
    · exact hpop _ he
  · rw [hc]
    rcases (scan_self_closing_tag_delimiter_state s input p).2 with he | he
    · rw [he]; exact Or.inr (Or.inl rfl)
    · exact hpop _ he
  · rw [hc]
    rcases (scan_end_tag_name_state s input p).2 with he | he
    · rw [he]; exact Or.inr (Or.inl rfl)
    · exact hpop _ he
  · rw [hc]
    rcases (scan_start_tag_name_state s input p).2.2 with he | ⟨t, he⟩
    · rw [he]; exact Or.inr (Or.inl rfl)
    · rw [he]
      refine Or.inr (Or.inr ?_)
      rw [List.length_append]
      rfl

/-- Witness for C6: scanning `<p>`'s start-tag name pushes one element. -/
theorem scan_stack_depth_witness :
    ((scan ⟨[], [], 0⟩ [112, 62] 0 (fun t => t == Token.HTML_START_TAG_NAME)).ok
      = true) ∧
    ((scan ⟨[], [], 0⟩ [112, 62] 0
        (fun t => t == Token.HTML_START_TAG_NAME)).scanner.tags.length + 1 =
        ([] : List Tag).length ∨
      (scan ⟨[], [], 0⟩ [112, 62] 0
        (fun t => t == Token.HTML_START_TAG_NAME)).scanner.tags.length =
        ([] : List Tag).length ∨
      (scan ⟨[], [], 0⟩ [112, 62] 0
        (fun t => t == Token.HTML_START_TAG_NAME)).scanner.tags.length =
        ([] : List Tag).length + 1) :=
  ⟨by decide,
    scan_stack_depth ⟨[], [], 0⟩ [112, 62] 0 (fun t => t == Token.HTML_START_TAG_NAME)
      (by decide)⟩

/-! ### Serialization round-trip lemmas (for C1 and C10) -/

/-- Reading the byte right after an arbitrary prefix. -/
theorem readB_at_head (pre : List Byte) (x : Byte) (L : List Byte) :
    readB (pre ++ x :: L) pre.length = x := by
  have h := readB_append pre (x :: L) 0
  simpa using h

/-- Shifting a read past one byte of the embedded segment. -/
theorem readB_shift (pre : List Byte) (x : Byte) (L : List Byte) (k : Nat) :
    readB (pre ++ x :: L) (pre.length + (k + 1)) = readB (pre ++ L) (pre.length + k) := by
  rw [readB_append, readB_append]
  rfl

/-- Reading inside an embedded segment. -/
theorem readB_seg (pre l post : List Byte) (k : Nat) (hk : k < l.length) :
    readB (pre ++ (l ++ post)) (pre.length + k) = l.getD k 0 := by
  rw [readB_append, readB_append_left l post k hk]
  rfl

/-- Reconstructing a list from its indexed reads. -/
theorem range_map_getD (l : List Byte) :
    (List.range l.length).map (fun i => l.getD i 0) = l := by
  refine List.ext_getElem (by simp) ?_
  intro i h1 h2
  simp only [List.getElem_map, List.getElem_range]
  rw [List.getD_eq_getElem l 0 h2]

/-- `strncpy` writes exactly `n` bytes. -/
theorem strncpyBytes_length (src : List Byte) (n : Nat) :
    (strncpyBytes src n).length = n := by
  induction n generalizing src with
  | zero => cases src <;> rfl
  | succ m ih =>
    cases src with
    | nil => simp [strncpyBytes]
    | cons b rest =>
      simp only [strncpyBytes]
      split
      · simp
      · simp [ih]

/-- On a NUL-free byte string copied at its own length, `strncpy` is the
    identity. -/
theorem strncpyBytes_eq_self (src : List Byte) (h : ∀ b ∈ src, 0 < b ∧ b < 256) :
    strncpyBytes src src.length = src := by
  induction src with
  | nil => rfl
  | cons b rest ih =>
    have hb := h b (List.mem_cons_self b rest)
    have hmod : b % 256 = b := Nat.mod_eq_of_lt hb.2
    have hb0 : ¬ b % 256 = 0 := by
      rw [hmod]
      exact Nat.pos_iff_ne_zero.mp hb.1
    simp only [List.length_cons, strncpyBytes]
    rw [if_neg hb0, hmod, ih (fun c hc => h c (List.mem_cons_of_mem b hc))]

/-- The encoding of one tag occupies exactly its reserved byte count. -/
theorem encTag_length (t : Tag) : (encTag t).length = tagBytes t := by
  simp only [encTag, tagBytes]
  split
  · simp [strncpyBytes_length]
    omega
  · simp

/-- Joined encodings have the reserved total size. -/
theorem encJoin_length (tags : List Tag) :
    ((tags.map encTag).join).length = (tags.map tagBytes).sum := by
  induction tags with
  | nil => rfl
  | cons t rest ih => simp [encTag_length, ih]

/-- Every tag needs at least one byte. -/
theorem tagBytes_pos (t : Tag) : 1 ≤ tagBytes t := by
  simp only [tagBytes]
  split <;> omega

/-- The tag count never exceeds the total tag-byte count. -/
theorem length_le_sum_tagBytes (tags : List Tag) :
    tags.length ≤ (tags.map tagBytes).sum := by
  induction tags with
  | nil => simp
  | cons t rest ih =>
    simp only [List.length_cons, List.map_cons, List.sum_cons]
    have := tagBytes_pos t
    omega

/-- The serializer's tag loop writes every fitting tag of a leading group and
    then continues on the rest: no `break` fires inside a group whose encoding
    ends strictly below the buffer size. -/
theorem serTagsGo_append (A B : List Tag) (size : Nat)
    (hfit : size + (A.map tagBytes).sum < TS_BUFFER_SIZE) :
    serTagsGo (A ++ B) size =
      ((A.map encTag).join ++ (serTagsGo B (size + (A.map tagBytes).sum)).1,
       A.length + (serTagsGo B (size + (A.map tagBytes).sum)).2) := by
  induction A generalizing size with
  | nil => simp
  | cons t A ih =>
    simp only [List.map_cons, List.sum_cons, List.join_cons, List.length_cons,
      List.cons_append] at hfit ⊢
    simp only [serTagsGo]
    by_cases ht : t.type = TagT.CUSTOM
    · rw [if_pos ht]
      have hbytes : tagBytes t = 2 + min t.name.length 255 := by
        simp [tagBytes, ht]
      rw [hbytes] at hfit
      rw [if_neg (by omega)]
      rw [ih (size + 2 + min t.name.length 255) (by omega)]
      have harith : size + 2 + min t.name.length 255 + (A.map tagBytes).sum =
          size + (2 + min t.name.length 255 + (A.map tagBytes).sum) := by omega
      rw [harith]
      simp only [encTag, if_pos ht, hbytes, Prod.mk.injEq]
      constructor
      · simp [List.append_assoc]
      · omega
    · rw [if_neg ht]
      have hbytes : tagBytes t = 1 := by simp [tagBytes, ht]
      rw [hbytes] at hfit
      rw [if_neg (by omega)]
      rw [ih (size + 1) (by omega)]
      have harith : size + 1 + (A.map tagBytes).sum =
          size + (1 + (A.map tagBytes).sum) := by omega
      rw [harith]
      simp only [encTag, if_neg ht, hbytes, Prod.mk.injEq]
      constructor
      · simp
      · omega

/-- Every complete group of fitting tags serializes to its full encoding. -/
theorem serTagsGo_complete (tags : List Tag) (size : Nat)
    (hfit : size + (tags.map tagBytes).sum < TS_BUFFER_SIZE) :
    serTagsGo tags size = ((tags.map encTag).join, tags.length) := by
  have h := serTagsGo_append tags [] size hfit
  simpa [serTagsGo] using h

/-- Reconstructing an embedded byte segment from its indexed reads. -/
theorem readList_seg (pre l post : List Byte) (hl : ∀ b ∈ l, b < 256) :
    (List.range l.length).map
        (fun i => readB (pre ++ (l ++ post)) (pre.length + i) % 256) = l := by
  refine List.ext_getElem (by simp) ?_
  intro i h1 h2
  simp only [List.getElem_map, List.getElem_range]
  have hi : i < l.length := by simpa using h1
  rw [readB_seg pre l post i hi, List.getD_eq_getElem l 0 hi]
  exact Nat.mod_eq_of_lt (hl _ (List.getElem_mem hi))

/-- Decoding an embedded little-endian `u16`. -/
theorem u16_decode (pre post : List Byte) (n : Nat) (hn : n < 65536) :
    readB (pre ++ (u16le n ++ post)) pre.length % 256
      + 256 * (readB (pre ++ (u16le n ++ post)) (pre.length + 1) % 256) = n := by
  have h0 : readB (pre ++ (u16le n ++ post)) (pre.length + 0) = n % 256 :=
    readB_seg pre (u16le n) post 0 (by simp [u16le])
  have h1 : readB (pre ++ (u16le n ++ post)) (pre.length + 1) = n / 256 % 256 :=
    readB_seg pre (u16le n) post 1 (by simp [u16le])
  rw [Nat.add_zero] at h0
  rw [h0, h1]
  show n % 256 % 256 + 256 * (n / 256 % 256 % 256) = n
  omega

/-- Reading the second byte after an arbitrary prefix. -/
theorem readB_at_second (pre : List Byte) (x y : Byte) (L : List Byte) :
    readB (pre ++ x :: y :: L) (pre.length + 1) = y := by
  have h := readB_append pre (x :: y :: L) 1
  simpa using h

/-- Decoding the full encoding of a well-formed tag group restores the group
    exactly, leaves the offset at the end of the group's segment, and reads
    only indices inside that segment. -/
theorem deserTagsGo_decode (tags : List Tag) (pre post : List Byte)
    (hwf : ∀ t ∈ tags, t.type < 256 ∧ t.name.length ≤ 255 ∧
      (∀ b ∈ t.name, 0 < b ∧ b < 256) ∧ (t.type ≠ TagT.CUSTOM → t.name = [])) :
    (deserTagsGo (pre ++ ((tags.map encTag).join ++ post)) tags.length
        pre.length).1 = tags ∧
    (deserTagsGo (pre ++ ((tags.map encTag).join ++ post)) tags.length
        pre.length).2.1 = pre.length + (tags.map tagBytes).sum ∧
    ∀ j ∈ (deserTagsGo (pre ++ ((tags.map encTag).join ++ post)) tags.length
        pre.length).2.2,
      pre.length ≤ j ∧ j < pre.length + (tags.map tagBytes).sum := by
  induction tags generalizing pre with
  | nil => exact ⟨rfl, by simp [deserTagsGo], by simp [deserTagsGo]⟩
  | cons t rest ih =>
    have h0 := hwf t (List.mem_cons_self t rest)
    have htype := h0.1
    have hlen := h0.2.1
    have hnb := h0.2.2.1
    have hwfrest : ∀ t' ∈ rest, t'.type < 256 ∧ t'.name.length ≤ 255 ∧
        (∀ b ∈ t'.name, 0 < b ∧ b < 256) ∧
        (t'.type ≠ TagT.CUSTOM → t'.name = []) :=
      fun t' ht' => hwf t' (List.mem_cons_of_mem t ht')
    have hmod : t.type % 256 = t.type := Nat.mod_eq_of_lt htype
    have hsum : ((t :: rest).map tagBytes).sum =
        tagBytes t + (rest.map tagBytes).sum := by simp
    by_cases ht : t.type = TagT.CUSTOM
    · have hmin : min t.name.length 255 = t.name.length := min_eq_left hlen
      have hencd : encTag t = t.type :: t.name.length :: t.name := by
        simp only [encTag, if_pos ht]
        rw [hmin, strncpyBytes_eq_self t.name hnb, hmod]
      have hbytes : tagBytes t = 2 + t.name.length := by
        simp only [tagBytes, if_pos ht]
        rw [hmin]
      have hbuf : pre ++ (((t :: rest).map encTag).join ++ post)
          = pre ++ t.type :: t.name.length ::
              (t.name ++ ((rest.map encTag).join ++ post)) := by
        simp only [List.map_cons, List.join_cons, hencd]
        simp [List.append_assoc]
      rw [hbuf, List.length_cons]
      simp only [deserTagsGo]
      have hty : readB (pre ++ t.type :: t.name.length ::
          (t.name ++ ((rest.map encTag).join ++ post))) pre.length % 256
            = t.type := by
        rw [readB_at_head]
        exact hmod
      rw [hty, if_pos ht]
      have hn : readB (pre ++ t.type :: t.name.length ::
          (t.name ++ ((rest.map encTag).join ++ post))) (pre.length + 1) % 256
            = t.name.length := by
        rw [readB_at_second]
        exact Nat.mod_eq_of_lt (by omega)
      rw [hn]
      have hb2 : pre ++ t.type :: t.name.length ::
          (t.name ++ ((rest.map encTag).join ++ post))
            = (pre ++ [t.type, t.name.length]) ++
              (t.name ++ ((rest.map encTag).join ++ post)) := by
        simp
      have hfun : ∀ i ∈ List.range t.name.length,
          readB (pre ++ t.type :: t.name.length ::
              (t.name ++ ((rest.map encTag).join ++ post)))
            (pre.length + 2 + i) % 256
          = readB ((pre ++ [t.type, t.name.length]) ++
              (t.name ++ ((rest.map encTag).join ++ post)))
            ((pre ++ [t.type, t.name.length]).length + i) % 256 := by
        intro i _
        rw [← hb2]
        have hidx : (pre ++ [t.type, t.name.length]).length + i
            = pre.length + 2 + i := by
          simp only [List.length_append, List.length_cons, List.length_nil]
        rw [hidx]
      have hnmread : (List.range t.name.length).map
          (fun i => readB (pre ++ t.type :: t.name.length ::
              (t.name ++ ((rest.map encTag).join ++ post)))
            (pre.length + 2 + i) % 256) = t.name := by
        rw [List.map_congr_left hfun]
        exact readList_seg (pre ++ [t.type, t.name.length]) t.name
          ((rest.map encTag).join ++ post) (fun b hb => (hnb b hb).2)
      rw [hnmread]
      have hback : pre ++ t.type :: t.name.length ::
          (t.name ++ ((rest.map encTag).join ++ post))
            = (pre ++ encTag t) ++ ((rest.map encTag).join ++ post) := by
        rw [hencd]
        simp
      have hoff : pre.length + 2 + t.name.length = (pre ++ encTag t).length := by
        rw [hencd]
        simp only [List.length_append, List.length_cons]
        omega
      rw [hback, hoff]
      have IH := ih (pre ++ encTag t) hwfrest
      have heta : (⟨t.type, t.name⟩ : Tag) = t := rfl
      refine ⟨?_, ?_, ?_⟩
      · rw [heta, IH.1]
      · rw [IH.2.1]
        rw [hencd] at *
        simp only [List.length_append, List.length_cons, List.length_nil] at *
        rw [hsum, hbytes]
        omega
      · intro j hj
        simp only [List.mem_cons, List.mem_append, List.mem_map,
          List.mem_range] at hj
        have hplen : (pre ++ encTag t).length = pre.length + 2 + t.name.length := by
          rw [hencd]
          simp only [List.length_append, List.length_cons]
          omega
        rcases hj with (hj | hj | ⟨i, hi, hj⟩) | hj
        · rw [hsum, hbytes]
          omega
        · rw [hsum, hbytes]
          omega
        · rw [hsum, hbytes]
          omega
        · have hb := IH.2.2 j hj
          rw [hplen] at hb
          rw [hsum, hbytes]
          omega
    · have hname : t.name = [] := h0.2.2.2 ht
      have hencd : encTag t = [t.type] := by
        simp only [encTag, if_neg ht]
        rw [hmod]
      have hbytes : tagBytes t = 1 := by simp [tagBytes, ht]
      have hbuf : pre ++ (((t :: rest).map encTag).join ++ post)
          = pre ++ t.type :: ((rest.map encTag).join ++ post) := by
        simp only [List.map_cons, List.join_cons, hencd]
        simp [List.append_assoc]
      rw [hbuf, List.length_cons]
      simp only [deserTagsGo]
      have hty : readB (pre ++ t.type ::
          ((rest.map encTag).join ++ post)) pre.length % 256 = t.type := by
        rw [readB_at_head]
        exact hmod
      rw [hty, if_neg ht]
      have hback : pre ++ t.type :: ((rest.map encTag).join ++ post)
          = (pre ++ encTag t) ++ ((rest.map encTag).join ++ post) := by
        rw [hencd]
        simp
      have hoff : pre.length + 1 = (pre ++ encTag t).length := by
        rw [hencd]
        simp
      rw [hback, hoff]
      have IH := ih (pre ++ encTag t) hwfrest
      have heta : (⟨t.type, []⟩ : Tag) = t := by
        rw [← hname]
      refine ⟨?_, ?_, ?_⟩
      · rw [heta, IH.1]
      · rw [IH.2.1]
        rw [hencd] at *
        simp only [List.length_append, List.length_cons, List.length_nil] at *
        rw [hsum, hbytes]
        omega
      · intro j hj
        simp only [List.mem_cons] at hj
        have hplen : (pre ++ encTag t).length = pre.length + 1 := by
          rw [hencd]
          simp
        rcases hj with hj | hj
        · rw [hsum, hbytes]
          omega
        · have hb := IH.2.2 j hj
          rw [hplen] at hb
          rw [hsum, hbytes]
          omega

/-- Reading back a stored prefix through the lookahead. -/
theorem range_map_readB_take (l : List Byte) (n : Nat) (hn : n ≤ l.length)
    (hb : ∀ b ∈ l.take n, b < 256) :
    (List.range n).map (fun i => readB l i % 256) = l.take n := by
  refine List.ext_getElem (by simp [hn]) ?_
  intro i h1 h2
  simp only [List.getElem_map, List.getElem_range]
  have hi : i < n := by simpa using h1
  have hil : i < l.length := lt_of_lt_of_le hi hn
  have hr : readB l i = l[i] := by
    simp only [readB]
    exact List.getD_eq_getElem l 0 hil
  have htk : (l.take n)[i] = l[i] := List.getElem_take l
  rw [hr, htk]
  refine Nat.mod_eq_of_lt ?_
  have : l[i] ∈ l.take n := by
    rw [← htk]
    exact List.getElem_mem h2
  exact hb _ this

/-- On a well-formed state that fits, `serialize` writes the complete
    encoding: suffix-length byte, suffix, the tag count twice (all tags are
    serialized), and every tag's encoding. -/
theorem serialize_shape (s : Scanner) (hwf : wfScanner s)
    (hfit : serializedSize s < TS_BUFFER_SIZE) :
    serialize s = s.verbatimLength ::
      (storedSuffix s ++ (u16le s.tags.length ++ (u16le s.tags.length ++
        (s.tags.map encTag).join))) ∧
    (serialize s).length
      = 1 + s.verbatimLength + 4 + (s.tags.map tagBytes).sum := by
  obtain ⟨hv255, hvlen, hsb, htags⟩ := hwf
  have hmin : min s.verbatimLength 255 = s.verbatimLength := min_eq_left hv255
  simp only [serializedSize] at hfit
  rw [hmin] at hfit
  have hTS : TS_BUFFER_SIZE = 1024 := rfl
  have hsfx : (List.range s.verbatimLength).map
      (fun i => readB s.verbatimBuf i % 256) = storedSuffix s :=
    range_map_readB_take s.verbatimBuf s.verbatimLength hvlen hsb
  have hlensum := length_le_sum_tagBytes s.tags
  have htc : min s.tags.length 65535 = s.tags.length :=
    min_eq_left (by omega)
  have htake : s.tags.take (min s.tags.length 65535) = s.tags := by
    rw [htc]
    exact List.take_length s.tags
  have hser : serTagsGo (s.tags.take (min s.tags.length 65535))
      (1 + min s.verbatimLength 255 + 4)
        = ((s.tags.map encTag).join, s.tags.length) := by
    rw [htake, hmin]
    exact serTagsGo_complete s.tags (1 + s.verbatimLength + 4) hfit
  have hshape : serialize s = s.verbatimLength ::
      (storedSuffix s ++ (u16le s.tags.length ++ (u16le s.tags.length ++
        (s.tags.map encTag).join))) := by
    simp only [serialize, hser]
    rw [hmin, htc, hsfx]
    simp [List.append_assoc]
  refine ⟨hshape, ?_⟩
  rw [hshape]
  have hsfxlen : (storedSuffix s).length = s.verbatimLength := by
    simp only [storedSuffix, List.length_take]
    exact min_eq_left hvlen
  simp only [List.length_cons, List.length_append, hsfxlen, u16le,
    encJoin_length]
  simp only [List.length_cons, List.length_nil]
  omega

/-- Master lemma for C1 and C10: deserializing the serialized bytes of a
    well-formed, strictly fitting state restores the element stack and the
    stored suffix, and every buffer index deserialize reads lies strictly
    below the returned serialized length. -/
theorem deserialize_serialize_spec (s : Scanner) (hwf : wfScanner s)
    (hfit : serializedSize s < TS_BUFFER_SIZE) :
    (deserialize freshScanner (serialize s) (serialize s).length).1.tags
      = s.tags ∧
    storedSuffix (deserialize freshScanner (serialize s) (serialize s).length).1
      = storedSuffix s ∧
    ∀ j ∈ (deserialize freshScanner (serialize s) (serialize s).length).2,
      j < (serialize s).length := by
  obtain ⟨hshape, hL⟩ := serialize_shape s hwf hfit
  obtain ⟨hv255, hvlen, hsb, htags⟩ := hwf
  have hTS : TS_BUFFER_SIZE = 1024 := rfl
  have hfit' : 1 + s.verbatimLength + 4 + (s.tags.map tagBytes).sum < 1024 := by
    simp only [serializedSize, min_eq_left hv255, hTS] at hfit
    omega
  have hlensum := length_le_sum_tagBytes s.tags
  have h65536 : s.tags.length < 65536 := by omega
  have hsfxlen : (storedSuffix s).length = s.verbatimLength := by
    simp only [storedSuffix, List.length_take]
    exact min_eq_left hvlen
  have hwf' : ∀ t ∈ s.tags, t.type < 256 ∧ t.name.length ≤ 255 ∧
      (∀ b ∈ t.name, 0 < b ∧ b < 256) ∧ (t.type ≠ TagT.CUSTOM → t.name = []) :=
    fun t ht => ⟨by have := (htags t ht).1; omega, (htags t ht).2.1,
      (htags t ht).2.2.1, (htags t ht).2.2.2⟩
  rw [hshape] at hL
  rw [hshape, hL]
  simp only [deserialize, freshScanner]
  rw [if_neg (show ¬(1 + s.verbatimLength + 4 + (s.tags.map tagBytes).sum = 0)
    by omega)]
  have hr0 : readB (s.verbatimLength :: (storedSuffix s ++
      (u16le s.tags.length ++ (u16le s.tags.length ++
        (s.tags.map encTag).join)))) 0 % 256 = s.verbatimLength := by
    have he : readB (s.verbatimLength :: (storedSuffix s ++
        (u16le s.tags.length ++ (u16le s.tags.length ++
          (s.tags.map encTag).join)))) 0 = s.verbatimLength := rfl
    rw [he]
    exact Nat.mod_eq_of_lt (by omega)
  rw [hr0]
  by_cases hvz : s.verbatimLength = 0
  · have hsfx0 : storedSuffix s = [] := by simp [storedSuffix, hvz]
    rw [hvz, hsfx0]
    simp only [List.nil_append]
    rw [if_neg (show ¬((0 : Nat) < 0 ∧
        1 + 0 ≤ 1 + 0 + 4 + (s.tags.map tagBytes).sum)
      from fun h => absurd h.1 (lt_irrefl 0))]
    dsimp only
    rw [if_neg (show ¬(1 + 0 + 4 + (s.tags.map tagBytes).sum < 1 + 4)
      by omega)]
    have hdec1 := u16_decode [(0 : Byte)]
      (u16le s.tags.length ++ (s.tags.map encTag).join) s.tags.length h65536
    simp only [List.singleton_append, List.length_singleton] at hdec1
    rw [hdec1]
    have hdec2 := u16_decode ((0 : Byte) :: u16le s.tags.length)
      ((s.tags.map encTag).join) s.tags.length h65536
    rw [show ((0 : Byte) :: u16le s.tags.length).length = 1 + 2 by
      simp [u16le]] at hdec2
    rw [show (1 + 2 + 1 : Nat) = 1 + 3 from rfl] at hdec2
    simp only [List.cons_append] at hdec2
    rw [hdec2]
    by_cases htz : s.tags.length = 0
    · rw [if_pos htz]
      refine ⟨(List.length_eq_zero.mp htz).symm, by simp [storedSuffix], ?_⟩
      intro j hj
      simp only [List.mem_append, List.mem_cons, List.nil_append,
        List.not_mem_nil, or_false] at hj
      rcases hj with h | h | h | h | h <;> omega
    · rw [if_neg htz]
      have hdec3 := deserTagsGo_decode s.tags
        ((0 : Byte) :: (u16le s.tags.length ++ u16le s.tags.length)) [] hwf'
      rw [show ((0 : Byte) :: (u16le s.tags.length ++
          u16le s.tags.length)).length = 1 + 4 by simp [u16le]] at hdec3
      simp only [List.append_nil, List.cons_append, List.append_assoc] at hdec3
      refine ⟨?_, ?_, ?_⟩
      · simp only [Nat.sub_self, List.replicate_zero, List.append_nil]
        rw [hdec3.1]
      · simp [storedSuffix]
      · intro j hj
        simp only [List.mem_cons, List.mem_append, List.nil_append,
          List.not_mem_nil, or_false] at hj
        rcases hj with (h | h | h | h | h) | h
        · omega
        · omega
        · omega
        · omega
        · omega
        · have hb := hdec3.2.2 j h
          omega
  · have hvpos : 0 < s.verbatimLength := Nat.pos_of_ne_zero hvz
    rw [if_pos (show 0 < s.verbatimLength ∧ 1 + s.verbatimLength ≤
        1 + s.verbatimLength + 4 + (s.tags.map tagBytes).sum
      from ⟨hvpos, by omega⟩)]
    dsimp only
    have hreadsfx : (List.range s.verbatimLength).map
        (fun i => readB (s.verbatimLength :: (storedSuffix s ++
            (u16le s.tags.length ++ (u16le s.tags.length ++
              (s.tags.map encTag).join)))) (1 + i) % 256) = storedSuffix s := by
      have h := readList_seg [s.verbatimLength] (storedSuffix s)
        (u16le s.tags.length ++ (u16le s.tags.length ++
          (s.tags.map encTag).join)) (fun b hb => hsb b hb)
      rw [hsfxlen] at h
      simp only [List.singleton_append, List.length_singleton] at h
      exact h
    rw [hreadsfx]
    rw [show overwritePrefix ([] : List Byte) (storedSuffix s)
        = storedSuffix s by simp [overwritePrefix]]
    rw [if_neg (show ¬(1 + s.verbatimLength + 4 + (s.tags.map tagBytes).sum <
        1 + s.verbatimLength + 4) by omega)]
    have hdec1 := u16_decode (s.verbatimLength :: storedSuffix s)
      (u16le s.tags.length ++ (s.tags.map encTag).join) s.tags.length h65536
    rw [show (s.verbatimLength :: storedSuffix s).length
        = 1 + s.verbatimLength by simp [hsfxlen]; omega] at hdec1
    simp only [List.cons_append, List.append_assoc] at hdec1
    rw [hdec1]
    have hdec2 := u16_decode (s.verbatimLength ::
        (storedSuffix s ++ u16le s.tags.length))
      ((s.tags.map encTag).join) s.tags.length h65536
    rw [show (s.verbatimLength ::
        (storedSuffix s ++ u16le s.tags.length)).length
        = 1 + s.verbatimLength + 2 by
      simp [u16le, hsfxlen]; omega] at hdec2
    rw [show (1 + s.verbatimLength + 2 + 1 : Nat)
        = 1 + s.verbatimLength + 3 by omega] at hdec2
    simp only [List.cons_append, List.append_assoc] at hdec2
    rw [hdec2]
    by_cases htz : s.tags.length = 0
    · rw [if_pos htz]
      refine ⟨(List.length_eq_zero.mp htz).symm, ?_, ?_⟩
      · show (storedSuffix s).take s.verbatimLength = storedSuffix s
        rw [← hsfxlen]
        exact List.take_length _
      · intro j hj
        simp only [List.mem_cons, List.mem_append, List.mem_map,
          List.mem_range, List.not_mem_nil, or_false] at hj
        rcases hj with (h | ⟨i, hi, h⟩) | h | h | h | h <;> omega
    · rw [if_neg htz]
      have hdec3 := deserTagsGo_decode s.tags
        (s.verbatimLength :: (storedSuffix s ++
          (u16le s.tags.length ++ u16le s.tags.length))) [] hwf'
      rw [show (s.verbatimLength :: (storedSuffix s ++
          (u16le s.tags.length ++ u16le s.tags.length))).length
          = 1 + s.verbatimLength + 4 by
        simp [u16le, hsfxlen]; omega] at hdec3
      simp only [List.append_nil, List.cons_append, List.append_assoc] at hdec3
      refine ⟨?_, ?_, ?_⟩
      · simp only [Nat.sub_self, List.replicate_zero, List.append_nil]
        rw [hdec3.1]
      · show (storedSuffix s).take s.verbatimLength = storedSuffix s
        rw [← hsfxlen]
        exact List.take_length _
      · intro j hj
        simp only [List.mem_cons, List.mem_append, List.mem_map,
          List.mem_range, List.not_mem_nil, or_false] at hj
        rcases hj with ((h | ⟨i, hi, h⟩) | h | h | h | h) | h
        · omega
        · omega
        · omega
        · omega
        · omega
        · omega
        · have hb := hdec3.2.2 j h
          omega

/-- C1: round-trip law, amended with a strict bound: correctness needs the
    complete encoding to be strictly below the buffer size. -/
theorem serialize_roundtrip (s : Scanner) (hwf : wfScanner s)
    (hfit : serializedSize s < TS_BUFFER_SIZE) :
    (deserialize freshScanner (serialize s) (serialize s).length).1.tags
      = s.tags ∧
    storedSuffix (deserialize freshScanner (serialize s) (serialize s).length).1
      = storedSuffix s :=
  ⟨(deserialize_serialize_spec s hwf hfit).1,
   (deserialize_serialize_spec s hwf hfit).2.1⟩

/-- Witness for C1 on a small concrete state. -/
theorem serialize_roundtrip_witness :
    wfScanner ⟨[⟨TagT.P, []⟩, ⟨TagT.CUSTOM, [97]⟩], [104], 1⟩ ∧
    serializedSize ⟨[⟨TagT.P, []⟩, ⟨TagT.CUSTOM, [97]⟩], [104], 1⟩
      < TS_BUFFER_SIZE ∧
    ((deserialize freshScanner
        (serialize ⟨[⟨TagT.P, []⟩, ⟨TagT.CUSTOM, [97]⟩], [104], 1⟩)
        (serialize ⟨[⟨TagT.P, []⟩, ⟨TagT.CUSTOM, [97]⟩], [104], 1⟩).length).1.tags
      = [⟨TagT.P, []⟩, ⟨TagT.CUSTOM, [97]⟩] ∧
    storedSuffix (deserialize freshScanner
        (serialize ⟨[⟨TagT.P, []⟩, ⟨TagT.CUSTOM, [97]⟩], [104], 1⟩)
        (serialize ⟨[⟨TagT.P, []⟩, ⟨TagT.CUSTOM, [97]⟩], [104], 1⟩).length).1
      = storedSuffix ⟨[⟨TagT.P, []⟩, ⟨TagT.CUSTOM, [97]⟩], [104], 1⟩) :=
  ⟨by decide, by decide,
    serialize_roundtrip ⟨[⟨TagT.P, []⟩, ⟨TagT.CUSTOM, [97]⟩], [104], 1⟩
      (by decide) (by decide)⟩

theorem join_replicate_singleton (n : Nat) (b : Byte) :
    (List.replicate n ([b] : List Byte)).join = List.replicate n b := by
  induction n with
  | zero => rfl
  | succ m ih => simp [List.replicate_succ, ih]

/-- C1 counterexample: `c1state` satisfies every hypothesis of the claim
    (suffix and names within 255 bytes, complete encoding of exactly 1024
    bytes, within the buffer size), yet serialize's tag loop `break`s on the
    final custom tag — `size + 2 + name_length >= 1024` — so deserialize
    restores a `tag_new()` placeholder instead. -/
theorem serialize_roundtrip_drops_custom_tag :
    wfScanner c1state ∧ serializedSize c1state ≤ TS_BUFFER_SIZE ∧
    (deserialize freshScanner (serialize c1state)
        (serialize c1state).length).1.tags ≠ c1state.tags := by
  have hct : c1state.tags
      = List.replicate 1016 (⟨TagT.P, []⟩ : Tag) ++ [⟨TagT.CUSTOM, [97]⟩] := rfl
  have hA_map_bytes : (List.replicate 1016 (⟨TagT.P, []⟩ : Tag)).map tagBytes
      = List.replicate 1016 1 := by
    rw [List.map_replicate]
    rfl
  have hA_sum : ((List.replicate 1016 (⟨TagT.P, []⟩ : Tag)).map tagBytes).sum
      = 1016 := by
    rw [hA_map_bytes]
    simp only [List.sum_replicate, smul_eq_mul, Nat.mul_one]
  have hA_map_enc : (List.replicate 1016 (⟨TagT.P, []⟩ : Tag)).map encTag
      = List.replicate 1016 ([25] : List Byte) := by
    rw [List.map_replicate]
    rfl
  have hwfA : ∀ t ∈ List.replicate 1016 (⟨TagT.P, []⟩ : Tag),
      t.type < 256 ∧ t.name.length ≤ 255 ∧ (∀ b ∈ t.name, 0 < b ∧ b < 256) ∧
      (t.type ≠ TagT.CUSTOM → t.name = []) := by
    intro t ht
    rw [List.eq_of_mem_replicate ht]
    decide
  have hwfc : wfScanner c1state := by
    refine ⟨by decide, by decide, ?_, ?_⟩
    · rw [show storedSuffix c1state = [] from rfl]
      simp
    · intro t ht
      rw [hct] at ht
      rcases List.mem_append.mp ht with h | h
      · rw [List.eq_of_mem_replicate h]
        decide
      · rw [List.mem_singleton.mp h]
        decide
  have hsize : serializedSize c1state = 1024 := by
    simp only [serializedSize, hct, List.map_append, List.sum_append,
      hA_sum]
    decide
  refine ⟨hwfc, by rw [hsize]; decide, ?_⟩
  have hTS : TS_BUFFER_SIZE = 1024 := rfl
  have hfitA : (1 + 0 + 4) +
      ((List.replicate 1016 (⟨TagT.P, []⟩ : Tag)).map tagBytes).sum
        < TS_BUFFER_SIZE := by
    rw [hA_sum, hTS]
    omega
  have hserA := serTagsGo_append (List.replicate 1016 (⟨TagT.P, []⟩ : Tag))
    [⟨TagT.CUSTOM, [97]⟩] (1 + 0 + 4) hfitA
  rw [hA_sum] at hserA
  rw [show serTagsGo [(⟨TagT.CUSTOM, [97]⟩ : Tag)] (1 + 0 + 4 + 1016)
      = ([], 0) from rfl] at hserA
  rw [hA_map_enc, join_replicate_singleton] at hserA
  dsimp only at hserA
  rw [List.append_nil] at hserA
  rw [List.length_replicate] at hserA
  rw [Nat.add_zero] at hserA
  have h1 : min c1state.verbatimLength 255 = 0 := rfl
  have hctlen : c1state.tags.length = 1017 := by
    rw [hct]
    simp only [List.length_append, List.length_replicate, List.length_cons,
      List.length_nil]
  have h2 : min c1state.tags.length 65535 = 1017 := by
    rw [hctlen]
    omega
  have h3 : c1state.tags.take 1017 = c1state.tags :=
    List.take_of_length_le (by rw [hctlen])
  have hshapeC : serialize c1state
      = 0 :: 248 :: 3 :: 249 :: 3 :: List.replicate 1016 (25 : Byte) := by
    simp only [serialize]
    rw [h1, h2, h3, hct, List.range_zero, List.map_nil, hserA]
    dsimp only
    rw [show u16le 1016 = [248, 3] from rfl, show u16le 1017 = [249, 3] from rfl]
    simp only [List.nil_append, List.cons_append, List.append_assoc]
  have hlenC : (serialize c1state).length = 1021 := by
    rw [hshapeC]
    simp only [List.length_cons, List.length_replicate]
  rw [hlenC, hshapeC]
  simp only [deserialize, freshScanner]
  rw [if_neg (show ¬((1021 : Nat) = 0) by omega)]
  rw [show readB (0 :: 248 :: 3 :: 249 :: 3 ::
      List.replicate 1016 (25 : Byte)) 0 % 256 = 0 from rfl]
  rw [if_neg (show ¬((0 : Nat) < 0 ∧ 1 + 0 ≤ 1021)
    from fun h => absurd h.1 (lt_irrefl 0))]
  dsimp only
  rw [if_neg (show ¬((1021 : Nat) < 1 + 4) by omega)]
  rw [show readB (0 :: 248 :: 3 :: 249 :: 3 ::
      List.replicate 1016 (25 : Byte)) 1 % 256 + 256 *
      (readB (0 :: 248 :: 3 :: 249 :: 3 ::
        List.replicate 1016 (25 : Byte)) (1 + 1) % 256) = 1016 from rfl]
  rw [show readB (0 :: 248 :: 3 :: 249 :: 3 ::
      List.replicate 1016 (25 : Byte)) (1 + 2) % 256 + 256 *
      (readB (0 :: 248 :: 3 :: 249 :: 3 ::
        List.replicate 1016 (25 : Byte)) (1 + 3) % 256) = 1017 from rfl]
  rw [if_neg (show ¬((1017 : Nat) = 0) by omega)]
  have hdecA := deserTagsGo_decode (List.replicate 1016 (⟨TagT.P, []⟩ : Tag))
    [0, 248, 3, 249, 3] [] hwfA
  rw [List.length_replicate] at hdecA
  rw [show ([0, 248, 3, 249, 3] : List Byte).length = 1 + 4 from rfl] at hdecA
  rw [hA_map_enc, join_replicate_singleton] at hdecA
  simp only [List.append_nil, List.cons_append, List.nil_append] at hdecA
  rw [hdecA.1]
  rw [show (1017 : Nat) - 1016 = 1 from rfl, List.replicate_one, hct]
  intro heq
  have h := List.append_cancel_left heq
  exact absurd h (by decide)

/-- C10 amended: on buffers produced by `serialize` from a well-formed,
    strictly fitting state, every index `deserialize` reads is strictly below
    the supplied length. -/
theorem deserialize_reads_below_length (s : Scanner) (hwf : wfScanner s)
    (hfit : serializedSize s < TS_BUFFER_SIZE) :
    ∀ j ∈ (deserialize freshScanner (serialize s) (serialize s).length).2,
      j < (serialize s).length :=
  (deserialize_serialize_spec s hwf hfit).2.2

/-- Witness for C10 on a small concrete state. -/
theorem deserialize_reads_below_length_witness :
    wfScanner ⟨[⟨TagT.LI, []⟩], [], 0⟩ ∧
    serializedSize ⟨[⟨TagT.LI, []⟩], [], 0⟩ < TS_BUFFER_SIZE ∧
    ∀ j ∈ (deserialize freshScanner (serialize ⟨[⟨TagT.LI, []⟩], [], 0⟩)
        (serialize ⟨[⟨TagT.LI, []⟩], [], 0⟩).length).2,
      j < (serialize ⟨[⟨TagT.LI, []⟩], [], 0⟩).length :=
  ⟨by decide, by decide,
    deserialize_reads_below_length ⟨[⟨TagT.LI, []⟩], [], 0⟩
      (by decide) (by decide)⟩

/-- C10 counterexample: on the five-byte buffer `[0, 1, 0, 1, 0]` with length
    5 (a serialized tag count of 1 whose tag bytes were truncated away), the
    unchecked tag loop of `deserialize` reads index 5, which is not strictly
    less than the supplied length. -/
theorem deserialize_reads_past_length :
    5 ∈ (deserialize freshScanner [0, 1, 0, 1, 0] 5).2 ∧ ¬(5 < 5) := by
  decide

/-! ### Generic-tag validator lemmas (for C4) -/

/-- A successful speculative match consumed exactly the keyword. -/
theorem matchRun_true (kw input : List Byte) (pos : Nat)
    (h : (matchRun kw input pos).2 = true) :
    (matchRun kw input pos).1 = pos + kw.length ∧ segMatches input pos kw := by
  induction kw generalizing pos with
  | nil => exact ⟨rfl, fun i hi => absurd hi (by simp)⟩
  | cons k rest ih =>
    simp only [matchRun] at h ⊢
    by_cases hk : readB input pos = k
    · rw [if_pos hk] at h ⊢
      obtain ⟨h1, h2⟩ := ih (pos + 1) h
      refine ⟨by rw [h1]; simp only [List.length_cons]; omega, ?_⟩
      intro i hi
      cases i with
      | zero => simpa using hk
      | succ j =>
        have hj : j < rest.length := by simpa using hi
        have := h2 j hj
        have he : pos + 1 + j = pos + (j + 1) := by omega
        rw [he] at this
        simpa using this
    · rw [if_neg hk] at h
      exact absurd h (by simp)

/-- A verbatim occurrence of the keyword makes the speculative match succeed. -/
theorem matchRun_of_seg (kw input : List Byte) (pos : Nat)
    (h : segMatches input pos kw) :
    matchRun kw input pos = (pos + kw.length, true) := by
  induction kw generalizing pos with
  | nil => simp [matchRun]
  | cons k rest ih =>
    have h0 : readB input pos = k := by
      have := h 0 (by simp)
      simpa using this
    simp only [matchRun, if_pos h0]
    have hrest : segMatches input (pos + 1) rest := by
      intro i hi
      have := h (i + 1) (by simpa using hi)
      have he : pos + (i + 1) = pos + 1 + i := by omega
      rw [he] at this
      simpa using this
    rw [ih (pos + 1) hrest]
    simp only [List.length_cons, Prod.mk.injEq]
    exact ⟨by omega, trivial⟩

/-- The speculative match never moves the cursor backwards. -/
theorem matchRun_ge (kw input : List Byte) (pos : Nat) :
    pos ≤ (matchRun kw input pos).1 := by
  induction kw generalizing pos with
  | nil => simp [matchRun]
  | cons k rest ih =>
    simp only [matchRun]
    split
    · exact le_trans (by omega) (ih (pos + 1))
    · simp

/-- Every byte the speculative match consumed is a keyword byte. -/
theorem matchRun_consumed (kw input : List Byte) (pos : Nat) :
    ∀ j, pos ≤ j → j < (matchRun kw input pos).1 →
      ∃ i, i < kw.length ∧ readB input j = readB kw i := by
  induction kw generalizing pos with
  | nil =>
    intro j h1 h2
    simp only [matchRun] at h2
    have h3 : j < pos := h2
    omega
  | cons k rest ih =>
    intro j h1 h2
    simp only [matchRun] at h2
    by_cases hk : readB input pos = k
    · rw [if_pos hk] at h2
      by_cases hj : j = pos
      · exact ⟨0, by simp, by rw [hj, hk]; rfl⟩
      · obtain ⟨i, hi, hr⟩ := ih (pos + 1) j (by omega) h2
        exact ⟨i + 1, by simpa using hi, by rw [hr]; rfl⟩
    · rw [if_neg hk] at h2
      omega

/-- Whitespace bytes inside the greedy whitespace run. -/
theorem ws4Run_bytes (l : List Byte) :
    ∀ i, i < ws4Run l → isWs4 (readB l i) = true := by
  induction l with
  | nil => intro i hi; simp [ws4Run] at hi
  | cons b rest ih =>
    intro i hi
    simp only [ws4Run, List.takeWhile_cons] at hi
    by_cases hb : isWs4 b = true
    · rw [if_pos hb] at hi
      simp only [List.length_cons] at hi
      cases i with
      | zero => simpa using hb
      | succ j =>
        have := ih j (by simp only [ws4Run]; omega)
        simpa using this
    · rw [if_neg hb] at hi
      simp at hi

/-- The greedy whitespace run stops at a non-whitespace lookahead. -/
theorem ws4Run_stop (l : List Byte) : isWs4 (readB l (ws4Run l)) = false := by
  induction l with
  | nil => rfl
  | cons b rest ih =>
    simp only [ws4Run, List.takeWhile_cons]
    by_cases hb : isWs4 b = true
    · rw [if_pos hb]
      simp only [List.length_cons]
      have he : readB (b :: rest) ((rest.takeWhile isWs4).length + 1)
          = readB rest ((rest.takeWhile isWs4).length) := rfl
      rw [he]
      exact ih
    · rw [if_neg hb]
      simp only [List.length_nil]
      have he : readB (b :: rest) 0 = b := rfl
      rw [he]
      simpa using hb

/-- The greedy whitespace run is determined by its boundary. -/
theorem ws4Run_eq (l : List Byte) (w : Nat)
    (h1 : ∀ i, i < w → isWs4 (readB l i) = true)
    (h2 : isWs4 (readB l w) = false) : ws4Run l = w := by
  rcases Nat.lt_trichotomy (ws4Run l) w with h | h | h
  · exact absurd (h1 _ h) (by simp [ws4Run_stop l])
  · exact h
  · exact absurd (ws4Run_bytes l w h) (by simp [h2])

/-- The follower test of the search, as a proposition. -/
theorem followerB_iff (b : Byte) :
    ((b = 32 || b = 9 || b = 13 || b = 10 || b = 37 : Bool)) = true ↔
      isFollower b := by
  constructor
  · intro h
    simp only [Bool.or_eq_true, decide_eq_true_eq] at h
    unfold isFollower
    tauto
  · intro h
    simp only [Bool.or_eq_true, decide_eq_true_eq]
    unfold isFollower at h
    tauto

/-- With enough fuel the end-tag search always answers. -/
theorem vgSearch_total (endTag input : List Byte) :
    ∀ fuel pos, input.length + 1 - pos < fuel →
      ∃ r, vgSearch fuel endTag input pos = some r := by
  intro fuel
  induction fuel with
  | zero => intro pos h; omega
  | succ fuel ih =>
    intro pos h
    simp only [vgSearch]
    by_cases h0 : readB input pos = 0
    · rw [if_pos h0]
      exact ⟨(false, pos), rfl⟩
    · have hlt : pos < input.length := lt_length_of_readB_ne_zero h0
      rw [if_neg h0]
      by_cases h123 : readB input pos = 123
      · rw [if_pos h123]
        by_cases h37 : readB input (pos + 1) = 37
        · rw [if_pos h37]
          split
          · split
            · exact ⟨_, rfl⟩
            · refine ih _ ?_
              have := matchRun_ge endTag input
                (pos + 2 + ws4Run (input.drop (pos + 2)))
              omega
          · refine ih _ ?_
            have := matchRun_ge endTag input
              (pos + 2 + ws4Run (input.drop (pos + 2)))
            omega
        · rw [if_neg h37]
          exact ih (pos + 1) (by omega)
      · rw [if_neg h123]
        exact ih (pos + 1) (by omega)

/-- Soundness of the end-tag search: success exhibits a closer occurrence at
    or after the start position. -/
theorem vgSearch_sound (endTag input : List Byte) :
    ∀ fuel pos p, vgSearch fuel endTag input pos = some (true, p) →
      ∃ q, pos ≤ q ∧ closerAt endTag input q := by
  intro fuel
  induction fuel with
  | zero => intro pos p h; simp [vgSearch] at h
  | succ fuel ih =>
    intro pos p h
    simp only [vgSearch] at h
    by_cases h0 : readB input pos = 0
    · rw [if_pos h0] at h
      simp at h
    · rw [if_neg h0] at h
      by_cases h123 : readB input pos = 123
      · rw [if_pos h123] at h
        by_cases h37 : readB input (pos + 1) = 37
        · rw [if_pos h37] at h
          by_cases hm : (matchRun endTag input
              (pos + 2 + ws4Run (input.drop (pos + 2)))).2 = true
          · rw [if_pos hm] at h
            by_cases hf : ((readB input (matchRun endTag input
                  (pos + 2 + ws4Run (input.drop (pos + 2)))).1 = 32 ||
                readB input (matchRun endTag input
                  (pos + 2 + ws4Run (input.drop (pos + 2)))).1 = 9 ||
                readB input (matchRun endTag input
                  (pos + 2 + ws4Run (input.drop (pos + 2)))).1 = 13 ||
                readB input (matchRun endTag input
                  (pos + 2 + ws4Run (input.drop (pos + 2)))).1 = 10 ||
                readB input (matchRun endTag input
                  (pos + 2 + ws4Run (input.drop (pos + 2)))).1 = 37 : Bool))
                = true
            · obtain ⟨hm1, hm2⟩ := matchRun_true endTag input _ hm
              refine ⟨pos, le_refl pos, h123, h37,
                ws4Run (input.drop (pos + 2)), ?_, hm2, ?_⟩
              · intro i hi
                have hb := ws4Run_bytes (input.drop (pos + 2)) i hi
                rwa [readB_drop] at hb
              · rw [← hm1]
                exact (followerB_iff _).mp hf
            · rw [if_neg hf] at h
              obtain ⟨q, hq1, hq2⟩ := ih _ p h
              have := matchRun_ge endTag input
                (pos + 2 + ws4Run (input.drop (pos + 2)))
              exact ⟨q, by omega, hq2⟩
          · rw [if_neg hm] at h
            obtain ⟨q, hq1, hq2⟩ := ih _ p h
            have := matchRun_ge endTag input
              (pos + 2 + ws4Run (input.drop (pos + 2)))
            exact ⟨q, by omega, hq2⟩
        · rw [if_neg h37] at h
          obtain ⟨q, hq1, hq2⟩ := ih _ p h
          exact ⟨q, by omega, hq2⟩
      · rw [if_neg h123] at h
        obtain ⟨q, hq1, hq2⟩ := ih _ p h
        exact ⟨q, by omega, hq2⟩

/-- Completeness of the end-tag search: on NUL-free input, a closer occurrence
    at or after the start position is always found (the keyword has positive
    length and only nonzero, non-`\x7b`, initially non-whitespace bytes, so a
    failed candidate can never consume the opening brace of a later one). -/
theorem vgSearch_complete (endTag input : List Byte) (q : Nat)
    (hlen : 0 < endTag.length)
    (hbytes : ∀ i, i < endTag.length → 0 < readB endTag i ∧ readB endTag i ≠ 123)
    (hws : isWs4 (readB endTag 0) = false)
    (hnoz : ∀ j, j < input.length → readB input j ≠ 0)
    (hq : closerAt endTag input q) :
    ∀ fuel pos, pos ≤ q → q + 1 ≤ fuel + pos →
      ∃ p, vgSearch fuel endTag input pos = some (true, p) := by
  intro fuel
  induction fuel with
  | zero =>
    intro pos h1 h2
    omega
  | succ fuel ih =>
    intro pos hpos hfuel
    by_cases hpq : pos = q
    · subst hpq
      obtain ⟨h123, h37, w, hwsw, hseg, hfol⟩ := hq
      simp only [vgSearch]
      rw [if_neg (show ¬(readB input pos = 0) by rw [h123]; decide), if_pos h123,
        if_pos h37]
      have hrun : ws4Run (input.drop (pos + 2)) = w := by
        refine ws4Run_eq _ w ?_ ?_
        · intro i hi
          rw [readB_drop]
          exact hwsw i hi
        · rw [readB_drop]
          have h0 := hseg 0 hlen
          rw [Nat.add_zero] at h0
          rw [h0]
          exact hws
      rw [hrun]
      rw [matchRun_of_seg endTag input (pos + 2 + w) hseg]
      rw [if_pos (show ((pos + 2 + w + endTag.length, true) : Nat × Bool).2
        = true from rfl)]
      rw [if_pos ((followerB_iff _).mpr hfol)]
      exact ⟨_, rfl⟩
    · have hlt : pos < q := lt_of_le_of_ne hpos hpq
      have hqlen : q < input.length :=
        lt_length_of_readB_ne_zero (show readB input q ≠ 0 by rw [hq.1]; decide)
      have h0 : readB input pos ≠ 0 := hnoz pos (by omega)
      simp only [vgSearch]
      rw [if_neg h0]
      by_cases h123 : readB input pos = 123
      · rw [if_pos h123]
        by_cases h37 : readB input (pos + 1) = 37
        · rw [if_pos h37]
          have hm1q : (matchRun endTag input
              (pos + 2 + ws4Run (input.drop (pos + 2)))).1 ≤ q := by
            by_contra hgt
            push_neg at hgt
            rcases Nat.lt_or_ge q (pos + 2) with hq2 | hq2
            · have heq : q = pos + 1 := by omega
              have hc := hq.1
              rw [heq, h37] at hc
              exact absurd hc (by decide)
            · rcases Nat.lt_or_ge q
                (pos + 2 + ws4Run (input.drop (pos + 2))) with hq3 | hq3
              · have hwsq := ws4Run_bytes (input.drop (pos + 2))
                  (q - (pos + 2)) (by omega)
                rw [readB_drop] at hwsq
                have heq : pos + 2 + (q - (pos + 2)) = q := by omega
                rw [heq] at hwsq
                rw [hq.1] at hwsq
                exact absurd hwsq (by decide)
              · obtain ⟨i, hi, hri⟩ := matchRun_consumed endTag input
                  (pos + 2 + ws4Run (input.drop (pos + 2))) q hq3 hgt
                have hne := (hbytes i hi).2
                rw [hq.1] at hri
                exact hne hri.symm
          have hm1ge : pos + 2 ≤ (matchRun endTag input
              (pos + 2 + ws4Run (input.drop (pos + 2)))).1 := by
            have := matchRun_ge endTag input
              (pos + 2 + ws4Run (input.drop (pos + 2)))
            omega
          by_cases hm : (matchRun endTag input
              (pos + 2 + ws4Run (input.drop (pos + 2)))).2 = true
          · rw [if_pos hm]
            by_cases hf : ((readB input (matchRun endTag input
                  (pos + 2 + ws4Run (input.drop (pos + 2)))).1 = 32 ||
                readB input (matchRun endTag input
                  (pos + 2 + ws4Run (input.drop (pos + 2)))).1 = 9 ||
                readB input (matchRun endTag input
                  (pos + 2 + ws4Run (input.drop (pos + 2)))).1 = 13 ||
                readB input (matchRun endTag input
                  (pos + 2 + ws4Run (input.drop (pos + 2)))).1 = 10 ||
                readB input (matchRun endTag input
                  (pos + 2 + ws4Run (input.drop (pos + 2)))).1 = 37 : Bool))
                = true
            · rw [if_pos hf]
              exact ⟨_, rfl⟩
            · rw [if_neg hf]
              exact ih _ hm1q (by omega)
          · rw [if_neg hm]
            exact ih _ hm1q (by omega)
        · rw [if_neg h37]
          exact ih (pos + 1) (by omega) (by omega)
      · rw [if_neg h123]
        exact ih (pos + 1) (by omega) (by omega)

/-- Identifier bytes are nonzero and never an opening brace. -/
theorem identByte_ok (b : Nat) (h : (iswalnumB b || b == 95) = true) :
    0 < b ∧ b ≠ 123 := by
  simp only [iswalnumB, iswalphaB, isDigitB, Bool.or_eq_true, Bool.and_eq_true,
    decide_eq_true_eq, beq_iff_eq] at h
  have h2 : ((65 ≤ b ∧ b ≤ 90 ∨ 97 ≤ b ∧ b ≤ 122) ∨ 48 ≤ b ∧ b ≤ 57) ∨
      b = 95 := h
  rcases h2 with ((h2 | h2) | h2) | h2 <;> omega

/-- A within-bounds lookahead is a list element. -/
theorem readB_mem (l : List Byte) (i : Nat) (h : i < l.length) :
    readB l i ∈ l := by
  simp only [readB]
  rw [List.getD_eq_getElem l 0 h]
  exact List.getElem_mem h

/-- The end-tag keyword built from an identifier has positive length and only
    nonzero, non-brace bytes, starting with the non-whitespace letter `e`. -/
theorem endTag_ok (idName : List Byte)
    (hid : ∀ b ∈ idName, (iswalnumB b || b == 95) = true) :
    0 < (strBytes "end" ++ idName).length ∧
    (∀ i, i < (strBytes "end" ++ idName).length →
      0 < readB (strBytes "end" ++ idName) i ∧
      readB (strBytes "end" ++ idName) i ≠ 123) ∧
    isWs4 (readB (strBytes "end" ++ idName) 0) = false := by
  have hend : strBytes "end" = [101, 110, 100] := rfl
  refine ⟨by rw [hend]; simp, ?_, ?_⟩
  · intro i hi
    rw [hend] at hi ⊢
    have hm := readB_mem ([101, 110, 100] ++ idName) i hi
    rcases List.mem_append.mp hm with h | h
    · simp only [List.mem_cons, List.not_mem_nil, or_false] at h
      rcases h with h | h | h <;> rw [h] <;> exact ⟨by decide, by decide⟩
    · exact identByte_ok _ (hid _ h)
  · rw [hend]
    have h0 : readB ([101, 110, 100] ++ idName) 0 = 101 := rfl
    rw [h0]
    decide

/-- A valid identifier start makes the scanned identifier nonempty. -/
theorem identRun_pos (input : List Byte) (pos : Nat)
    (hstart : (iswalphaB (readB input pos) || readB input pos == 95) = true) :
    0 < ((input.drop pos).takeWhile fun b =>
      iswalnumB b || b == 95).length := by
  have hc0 : readB input pos ≠ 0 := by
    intro h0
    rw [h0] at hstart
    exact absurd hstart (by decide)
  have hlt := lt_length_of_readB_ne_zero hc0
  have hdrop : input.drop pos = input[pos] :: input.drop (pos + 1) :=
    List.drop_eq_getElem_cons hlt
  have hget : input[pos] = readB input pos :=
    (List.getD_eq_getElem input 0 hlt).symm
  rw [hdrop, hget, List.takeWhile_cons]
  have hpred : (iswalnumB (readB input pos) || readB input pos == 95) = true := by
    rcases Bool.or_eq_true_iff.mp hstart with h | h
    · simp [iswalnumB, h]
    · simp [h]
  rw [if_pos hpred]
  simp

/-- C4 amended: on NUL-free input whose scanned identifier is within the
    255-byte bound, the validator is zero-width; a non-identifier start byte,
    a built-in keyword, or an `end`-prefixed name always fails; otherwise with
    `VALIDATE_GENERIC_BLOCK` valid it emits that token iff a closing
    `\x7b% ws end<name> (ws|%)` occurrence follows the identifier, falling back
    to `VALIDATE_GENERIC_SIMPLE` exactly when that token is valid; without
    block validation it emits `VALIDATE_GENERIC_SIMPLE` exactly when valid. -/
theorem scan_validate_generic_tag_spec (input : List Byte) (pos : Nat)
    (valid : Valid)
    (hnoz : ∀ j, j < input.length → readB input j ≠ 0)
    (hidlen : ((input.drop pos).takeWhile fun b =>
      iswalnumB b || b == 95).length ≤ 255) :
    (scan_validate_generic_tag input pos valid).marked = some pos ∧
    ((iswalphaB (readB input pos) || readB input pos == 95) = false →
      (scan_validate_generic_tag input pos valid).ok = false) ∧
    (is_builtin_django_tag ((input.drop pos).takeWhile fun b =>
        iswalnumB b || b == 95) = true →
      (scan_validate_generic_tag input pos valid).ok = false) ∧
    ((3 ≤ ((input.drop pos).takeWhile fun b =>
          iswalnumB b || b == 95).length ∧
        readB ((input.drop pos).takeWhile fun b =>
          iswalnumB b || b == 95) 0 = 101 ∧
        readB ((input.drop pos).takeWhile fun b =>
          iswalnumB b || b == 95) 1 = 110 ∧
        readB ((input.drop pos).takeWhile fun b =>
          iswalnumB b || b == 95) 2 = 100) →
      (scan_validate_generic_tag input pos valid).ok = false) ∧
    ((iswalphaB (readB input pos) || readB input pos == 95) = true →
      is_builtin_django_tag ((input.drop pos).takeWhile fun b =>
        iswalnumB b || b == 95) = false →
      ¬(3 ≤ ((input.drop pos).takeWhile fun b =>
            iswalnumB b || b == 95).length ∧
          readB ((input.drop pos).takeWhile fun b =>
            iswalnumB b || b == 95) 0 = 101 ∧
          readB ((input.drop pos).takeWhile fun b =>
            iswalnumB b || b == 95) 1 = 110 ∧
          readB ((input.drop pos).takeWhile fun b =>
            iswalnumB b || b == 95) 2 = 100) →
      (valid Token.VALIDATE_GENERIC_BLOCK = true →
        ((∃ q, pos + ((input.drop pos).takeWhile fun b =>
              iswalnumB b || b == 95).length ≤ q ∧
            closerAt (strBytes "end" ++ ((input.drop pos).takeWhile fun b =>
              iswalnumB b || b == 95)) input q) →
          (scan_validate_generic_tag input pos valid).ok = true ∧
          (scan_validate_generic_tag input pos valid).symbol
            = some Token.VALIDATE_GENERIC_BLOCK) ∧
        (¬(∃ q, pos + ((input.drop pos).takeWhile fun b =>
              iswalnumB b || b == 95).length ≤ q ∧
            closerAt (strBytes "end" ++ ((input.drop pos).takeWhile fun b =>
              iswalnumB b || b == 95)) input q) →
          (scan_validate_generic_tag input pos valid).ok
            = valid Token.VALIDATE_GENERIC_SIMPLE ∧
          (scan_validate_generic_tag input pos valid).symbol
            = (if valid Token.VALIDATE_GENERIC_SIMPLE = true
              then some Token.VALIDATE_GENERIC_SIMPLE else none))) ∧
      (valid Token.VALIDATE_GENERIC_BLOCK = false →
        (scan_validate_generic_tag input pos valid).ok
          = valid Token.VALIDATE_GENERIC_SIMPLE ∧
        (scan_validate_generic_tag input pos valid).symbol
          = (if valid Token.VALIDATE_GENERIC_SIMPLE = true
            then some Token.VALIDATE_GENERIC_SIMPLE else none))) := by
  have htake : (((input.drop pos).takeWhile fun b =>
      iswalnumB b || b == 95).take 255)
      = ((input.drop pos).takeWhile fun b => iswalnumB b || b == 95) :=
    List.take_of_length_le hidlen
  refine ⟨?_, ?_, ?_, ?_, ?_⟩
  · simp only [scan_validate_generic_tag]
    repeat' split
    all_goals rfl
  · intro hF
    simp only [scan_validate_generic_tag]
    rw [if_pos (show (!(iswalphaB (readB input pos) || readB input pos == 95))
        = true by rw [hF]; rfl)]
  · intro hb
    by_cases hs : (iswalphaB (readB input pos) || readB input pos == 95) = true
    · simp only [scan_validate_generic_tag]
      rw [if_neg (show ¬((!(iswalphaB (readB input pos) ||
          readB input pos == 95)) = true) by rw [hs]; decide)]
      rw [htake]
      rw [if_neg (show ¬(((input.drop pos).takeWhile fun b =>
          iswalnumB b || b == 95).length = 0) by
        have := identRun_pos input pos hs
        omega)]
      rw [if_pos hb]
    · have hF : (iswalphaB (readB input pos) || readB input pos == 95) = false :=
        Bool.eq_false_iff.mpr hs
      simp only [scan_validate_generic_tag]
      rw [if_pos (show (!(iswalphaB (readB input pos) ||
          readB input pos == 95)) = true by rw [hF]; rfl)]
  · intro hd
    by_cases hs : (iswalphaB (readB input pos) || readB input pos == 95) = true
    · by_cases hb : is_builtin_django_tag ((input.drop pos).takeWhile fun b =>
          iswalnumB b || b == 95) = true
      · simp only [scan_validate_generic_tag]
        rw [if_neg (show ¬((!(iswalphaB (readB input pos) ||
            readB input pos == 95)) = true) by rw [hs]; decide)]
        rw [htake]
        rw [if_neg (show ¬(((input.drop pos).takeWhile fun b =>
            iswalnumB b || b == 95).length = 0) by
          have := identRun_pos input pos hs
          omega)]
        rw [if_pos hb]
      · simp only [scan_validate_generic_tag]
        rw [if_neg (show ¬((!(iswalphaB (readB input pos) ||
            readB input pos == 95)) = true) by rw [hs]; decide)]
        rw [htake]
        rw [if_neg (show ¬(((input.drop pos).takeWhile fun b =>
            iswalnumB b || b == 95).length = 0) by
          have := identRun_pos input pos hs
          omega)]
        rw [if_neg hb]
        rw [if_pos hd]
    · have hF : (iswalphaB (readB input pos) || readB input pos == 95) = false :=
        Bool.eq_false_iff.mpr hs
      simp only [scan_validate_generic_tag]
      rw [if_pos (show (!(iswalphaB (readB input pos) ||
          readB input pos == 95)) = true by rw [hF]; rfl)]
  · intro hs hb hne
    have hfb : ¬(is_builtin_django_tag ((input.drop pos).takeWhile fun b =>
        iswalnumB b || b == 95) = true) := by simp [hb]
    have hid : ∀ b ∈ ((input.drop pos).takeWhile fun b =>
        iswalnumB b || b == 95), (iswalnumB b || b == 95) = true := by
      intro b hbm
      have h := List.mem_takeWhile_imp hbm
      exact h
    obtain ⟨hetlen, hetbytes, hetws⟩ := endTag_ok _ hid
    constructor
    · intro hB
      have hred : scan_validate_generic_tag input pos valid =
          (match vgSearch (2 * input.length + 8)
              (strBytes "end" ++ ((input.drop pos).takeWhile fun b =>
                iswalnumB b || b == 95)) input
              (pos + ((input.drop pos).takeWhile fun b =>
                iswalnumB b || b == 95).length) with
            | some (true, p) =>
              ⟨true, p, some pos, some Token.VALIDATE_GENERIC_BLOCK⟩
            | some (false, p) =>
              if valid Token.VALIDATE_GENERIC_SIMPLE then
                ⟨true, p, some pos, some Token.VALIDATE_GENERIC_SIMPLE⟩
              else ⟨false, p, some pos, none⟩
            | none =>
              ⟨false, pos + ((input.drop pos).takeWhile fun b =>
                iswalnumB b || b == 95).length, some pos, none⟩) := by
        simp only [scan_validate_generic_tag]
        rw [if_neg (show ¬((!(iswalphaB (readB input pos) ||
            readB input pos == 95)) = true) by rw [hs]; decide)]
        rw [htake]
        rw [if_neg (show ¬(((input.drop pos).takeWhile fun b =>
            iswalnumB b || b == 95).length = 0) by
          have := identRun_pos input pos hs
          omega)]
        rw [if_neg hfb, if_neg hne, if_pos hB]
      obtain ⟨⟨b, p⟩, hr⟩ := vgSearch_total
        (strBytes "end" ++ ((input.drop pos).takeWhile fun b =>
          iswalnumB b || b == 95)) input (2 * input.length + 8)
        (pos + ((input.drop pos).takeWhile fun b =>
          iswalnumB b || b == 95).length) (by omega)
      rw [hr] at hred
      cases b
      · constructor
        · intro hex
          obtain ⟨q, hq1, hq2⟩ := hex
          have hqlen : q < input.length :=
            lt_length_of_readB_ne_zero (show readB input q ≠ 0 by
              rw [hq2.1]; decide)
          obtain ⟨p2, hp2⟩ := vgSearch_complete _ input q hetlen hetbytes hetws
            hnoz hq2 (2 * input.length + 8)
            (pos + ((input.drop pos).takeWhile fun b =>
              iswalnumB b || b == 95).length) hq1 (by omega)
          rw [hr] at hp2
          exact absurd (Option.some.inj hp2) (by simp)
        · intro hnex
          rw [hred]
          by_cases hsv : valid Token.VALIDATE_GENERIC_SIMPLE = true
          · rw [if_pos hsv, hsv]
            exact ⟨rfl, rfl⟩
          · rw [if_neg hsv, Bool.eq_false_iff.mpr hsv]
            exact ⟨rfl, rfl⟩
      · constructor
        · intro _
          rw [hred]
          exact ⟨rfl, rfl⟩
        · intro hnex
          obtain ⟨q, hq1, hq2⟩ := vgSearch_sound _ input _ _ _ hr
          exact absurd ⟨q, hq1, hq2⟩ hnex
    · intro hBf
      have hred : scan_validate_generic_tag input pos valid =
          (if valid Token.VALIDATE_GENERIC_SIMPLE then
            ⟨true, pos + ((input.drop pos).takeWhile fun b =>
              iswalnumB b || b == 95).length, some pos,
              some Token.VALIDATE_GENERIC_SIMPLE⟩
          else ⟨false, pos + ((input.drop pos).takeWhile fun b =>
            iswalnumB b || b == 95).length, some pos, none⟩) := by
        simp only [scan_validate_generic_tag]
        rw [if_neg (show ¬((!(iswalphaB (readB input pos) ||
            readB input pos == 95)) = true) by rw [hs]; decide)]
        rw [htake]
        rw [if_neg (show ¬(((input.drop pos).takeWhile fun b =>
            iswalnumB b || b == 95).length = 0) by
          have := identRun_pos input pos hs
          omega)]
        rw [if_neg hfb, if_neg hne]
        rw [if_neg (show ¬(valid Token.VALIDATE_GENERIC_BLOCK = true) by
          simp [hBf])]
      rw [hred]
      by_cases hsv : valid Token.VALIDATE_GENERIC_SIMPLE = true
      · rw [if_pos hsv, hsv]
        exact ⟨rfl, rfl⟩
      · rw [if_neg hsv, Bool.eq_false_iff.mpr hsv]
        exact ⟨rfl, rfl⟩

/-- Witness for C4 on the input `foo\x7b%endfoo %\x7d`: block validation
    succeeds and emits the zero-width `VALIDATE_GENERIC_BLOCK`. -/
theorem scan_validate_generic_tag_spec_witness :
    (∀ j, j < ([102, 111, 111, 123, 37, 101, 110, 100, 102, 111, 111, 32, 37,
        125] : List Byte).length →
      readB [102, 111, 111, 123, 37, 101, 110, 100, 102, 111, 111, 32, 37, 125]
        j ≠ 0) ∧
    ((([102, 111, 111, 123, 37, 101, 110, 100, 102, 111, 111, 32, 37, 125] :
        List Byte).drop 0).takeWhile (fun b =>
      iswalnumB b || b == 95)).length ≤ 255 ∧
    (scan_validate_generic_tag
        [102, 111, 111, 123, 37, 101, 110, 100, 102, 111, 111, 32, 37, 125] 0
        (fun t => t == Token.VALIDATE_GENERIC_BLOCK)).ok = true ∧
    (scan_validate_generic_tag
        [102, 111, 111, 123, 37, 101, 110, 100, 102, 111, 111, 32, 37, 125] 0
        (fun t => t == Token.VALIDATE_GENERIC_BLOCK)).symbol
      = some Token.VALIDATE_GENERIC_BLOCK := by
  refine ⟨by decide, by decide, ?_⟩
  have h := (scan_validate_generic_tag_spec
      [102, 111, 111, 123, 37, 101, 110, 100, 102, 111, 111, 32, 37, 125] 0
      (fun t => t == Token.VALIDATE_GENERIC_BLOCK)
      (by decide) (by decide)).2.2.2.2
  have h2 := (h (by decide) (by decide) (by decide)).1 (by decide)
  refine h2.1 ⟨3, by decide, by decide, by decide, 0, ?_, ?_, ?_⟩
  · intro i hi
    exact absurd hi (by omega)
  · unfold segMatches
    decide
  · unfold isFollower
    decide

/-- C4 counterexample: on `x`, NUL, `\x7b%endx %\x7d` the remaining input
    contains a closing tag for the identifier `x`, yet the search loop treats
    the embedded NUL byte as end of input and stops before it, so the scanner
    falls back to `VALIDATE_GENERIC_SIMPLE` instead of emitting
    `VALIDATE_GENERIC_BLOCK`. -/
theorem vg_closer_beyond_nul_missed :
    (([120, 0, 123, 37, 101, 110, 100, 120, 32, 37, 125] :
        List Byte).drop 0).takeWhile (fun b => iswalnumB b || b == 95)
      = [120] ∧
    closerAt (strBytes "end" ++ [120])
      [120, 0, 123, 37, 101, 110, 100, 120, 32, 37, 125] 2 ∧
    0 + 1 ≤ 2 ∧
    (scan_validate_generic_tag
        [120, 0, 123, 37, 101, 110, 100, 120, 32, 37, 125] 0
        (fun _ => true)).symbol = some Token.VALIDATE_GENERIC_SIMPLE ∧
    some Token.VALIDATE_GENERIC_SIMPLE ≠ some Token.VALIDATE_GENERIC_BLOCK := by
  refine ⟨by decide, ⟨by decide, by decide, 0, ?_, ?_, ?_⟩, by decide, ?_,
    by decide⟩
  · intro i hi
    exact absurd hi (by omega)
  · unfold segMatches
    decide
  · unfold isFollower
    decide
  · decide

/-! ## Claim theorems -/

set_option maxRecDepth 100000

/-- If `getLast?` yields an element, that element is in the list. -/
theorem mem_of_getLast?_eq {α : Type} {l : List α} {a : α}
    (h : l.getLast? = some a) : a ∈ l := by
  obtain ⟨hne, heq⟩ := List.mem_getLast?_eq_getLast (l := l) (x := a) (by simp [h])
  subst heq
  exact List.getLast_mem hne

/-- C2: End-tag classification.  For every scanner state and every input from
    which `scan_end_tag_name` reads a non-empty tag name, the scan succeeds
    and emits exactly one of three results: if the candidate tag equals the
    stack top, the top is popped and `END_TAG_NAME` is emitted; else if the
    candidate equals some tag deeper in the stack, `END_TAG_NAME` is emitted
    with the stack completely unchanged; else `ERRONEOUS_END_TAG_NAME` is
    emitted and the stack is unchanged. -/
theorem scan_end_tag_name_trichotomy (s : Scanner) (input : List Byte) (pos : Nat)
    (u : Bool)
    (hu : u = (!in_foreign_content s ||
      (match s.tags.getLast? with
       | some t => t.type == TagT.SVG || t.type == TagT.MATH
       | none => false)))
    (name : List Byte) (hname : name = (scan_tag_name input pos u).1)
    (tag : Tag)
    (htag : tag = if in_foreign_content s ∧ !u then ⟨TagT.CUSTOM, name⟩
      else tag_for_name name)
    (hne : name ≠ []) :
    (scan_end_tag_name s input pos).ok = true ∧
    (∀ t, s.tags.getLast? = some t → tag_eq t tag = true →
      (scan_end_tag_name s input pos).scanner.tags = s.tags.dropLast ∧
      (scan_end_tag_name s input pos).symbol = some Token.END_TAG_NAME) ∧
    ((∀ t, s.tags.getLast? = some t → tag_eq t tag = false) →
      (∃ t ∈ s.tags, tag_eq t tag = true) →
      (scan_end_tag_name s input pos).scanner = s ∧
      (scan_end_tag_name s input pos).symbol = some Token.END_TAG_NAME) ∧
    ((∀ t ∈ s.tags, tag_eq t tag = false) →
      (scan_end_tag_name s input pos).scanner = s ∧
      (scan_end_tag_name s input pos).symbol = some Token.ERRONEOUS_END_TAG_NAME) := by
  subst hu
  simp only [scan_end_tag_name]
  rw [← hname, ← htag]
  have hlen : ¬ (name.length = 0) := by simpa [List.length_eq_zero] using hne
  rw [if_neg hlen]
  refine ⟨?_, ?_, ?_, ?_⟩
  · split
    · rfl
    · split <;> rfl
  · intro t ht htEq
    split
    · exact ⟨by simp [pop_tag], rfl⟩
    · rename_i hcond
      exact absurd (by simpa [ht] using htEq) (by simpa [ht] using hcond)
  · intro hTop hAny
    have hcond : (match s.tags.getLast? with
        | some topTag => tag_eq topTag tag
        | none => false) = false := by
      cases hlast : s.tags.getLast? with
      | none => rfl
      | some t => simpa using hTop t hlast
    rw [if_neg (by simp [hcond])]
    rw [if_pos (by
      obtain ⟨t, htmem, hteq⟩ := hAny
      exact List.any_eq_true.mpr ⟨t, htmem, hteq⟩)]
    exact ⟨rfl, rfl⟩
  · intro hNone
    have hany : (s.tags.any fun t => tag_eq t tag) = false := by
      simp only [List.any_eq_false]
      intro t htmem
      simp [hNone t htmem]
    have hcond : (match s.tags.getLast? with
        | some topTag => tag_eq topTag tag
        | none => false) = false := by
      cases hlast : s.tags.getLast? with
      | none => rfl
      | some t => simpa using hNone t (mem_of_getLast?_eq hlast)
    rw [if_neg (by simp [hcond]), if_neg (by simp [hany])]
    exact ⟨rfl, rfl⟩

/-- Witness for C2: on stack `[P]` and input `"p>"` the candidate `P` equals
    the stack top, so the top is popped and `END_TAG_NAME` is emitted. -/
theorem scan_end_tag_name_trichotomy_witness :
    (strBytes "P" ≠ []) ∧
    ((scan_end_tag_name ⟨[⟨TagT.P, []⟩], [], 0⟩ (strBytes "p>") 0).ok = true ∧
      (∀ t, (Scanner.mk [⟨TagT.P, []⟩] [] 0).tags.getLast? = some t →
        tag_eq t ⟨TagT.P, []⟩ = true →
        (scan_end_tag_name ⟨[⟨TagT.P, []⟩], [], 0⟩ (strBytes "p>") 0).scanner.tags =
          [Tag.mk TagT.P []].dropLast ∧
        (scan_end_tag_name ⟨[⟨TagT.P, []⟩], [], 0⟩ (strBytes "p>") 0).symbol =
          some Token.END_TAG_NAME) ∧
      ((∀ t, (Scanner.mk [⟨TagT.P, []⟩] [] 0).tags.getLast? = some t →
        tag_eq t ⟨TagT.P, []⟩ = false) →
        (∃ t ∈ [Tag.mk TagT.P []], tag_eq t ⟨TagT.P, []⟩ = true) →
        (scan_end_tag_name ⟨[⟨TagT.P, []⟩], [], 0⟩ (strBytes "p>") 0).scanner =
          ⟨[⟨TagT.P, []⟩], [], 0⟩ ∧
        (scan_end_tag_name ⟨[⟨TagT.P, []⟩], [], 0⟩ (strBytes "p>") 0).symbol =
          some Token.END_TAG_NAME) ∧
      ((∀ t ∈ [Tag.mk TagT.P []], tag_eq t ⟨TagT.P, []⟩ = false) →
        (scan_end_tag_name ⟨[⟨TagT.P, []⟩], [], 0⟩ (strBytes "p>") 0).scanner =
          ⟨[⟨TagT.P, []⟩], [], 0⟩ ∧
        (scan_end_tag_name ⟨[⟨TagT.P, []⟩], [], 0⟩ (strBytes "p>") 0).symbol =
          some Token.ERRONEOUS_END_TAG_NAME)) :=
  ⟨by decide,
    scan_end_tag_name_trichotomy ⟨[⟨TagT.P, []⟩], [], 0⟩ (strBytes "p>") 0
      true (by decide) (strBytes "P") (by decide) ⟨TagT.P, []⟩ (by decide)
      (by decide)⟩

/-- C8 counterexample: `scan_verbatim_start` does not reject a suffix longer
    than 255 bytes — on a 256-byte suffix followed by `%}` it succeeds,
    emits `VERBATIM_START` and records length 256, contradicting the claim
    that such inputs are rejected at the start scanner. -/
theorem verbatim_suffix_over_255_accepted :
    (scan_verbatim_start freshScanner (List.replicate 256 97 ++ [37, 125]) 0).ok
        = true ∧
    (scan_verbatim_start freshScanner
        (List.replicate 256 97 ++ [37, 125]) 0).scanner.verbatimLength = 256 ∧
    (scan_verbatim_start freshScanner (List.replicate 256 97 ++ [37, 125]) 0).symbol
        = some Token.VERBATIM_START := by
  decide

/-- C8 amended: 255 bytes is the maximum suffix that serialization preserves —
    `serialize` clamps the recorded suffix length to `min length 255` and
    stores exactly that many suffix bytes; the start scanner itself accepts
    longer suffixes (see the counterexample). -/
theorem serialize_truncates_suffix_to_255 (s : Scanner) :
    (serialize s).take (1 + min s.verbatimLength 255) =
      min s.verbatimLength 255 ::
        (List.range (min s.verbatimLength 255)).map
          (fun i => readB s.verbatimBuf i % 256) := by
  simp only [serialize]
  rw [List.append_assoc, List.append_assoc]
  refine List.take_left' ?_
  simp only [List.length_cons, List.length_map, List.length_range]
  omega

end HtmlDjango
